import Mathlib

/-!
Verification of the DSMR v10 telegram parser (`src/main.rs`).

The parser is embedded shallowly:
* input lines are lists of characters (the input is ASCII, so Rust's byte
  indexing coincides with character indexing);
* every Rust panic source (`unwrap`, `assert!`, `unreachable!`, out-of-range
  slicing and indexing, wrapping `usize`/`u8` arithmetic followed by a failed
  bound check) is modelled by `Option`/`PRes.crashed`;
* `f64` values are kept as their accepted source literal (claims never inspect
  the numeric value, only whether Rust's `f64` parse succeeds);
* the external collaborator `tudelft_dsmr_output_generator::date_to_timestamp`
  is opaque per the specification: every definition and theorem is
  parametrised by an arbitrary `d2ts : D2TS`.
-/

/-- Severity of an event-log entry (`enum Severity`). -/
inductive Severity where
  | Low
  | High
deriving DecidableEq, Repr

/-- A stored `f64`: either the initial `0.0` or a value overwritten from an
accepted floating-point literal of the input. -/
inductive F64 where
  | zero
  | lit (s : List Char)
deriving DecidableEq, Repr

/-- `struct Electricity`. -/
structure Electricity where
  power : List F64
  voltage : List F64
  current : List F64
  total_consumed : F64
  total_produced : F64
deriving DecidableEq, Repr

/-- `struct EventLog`. -/
structure EventLog where
  ids : List Nat
  severities : List Severity
  dates : List Int
  messages : List (List Char)
deriving DecidableEq, Repr

/-- `struct TelegramV10`. -/
structure TelegramV10 where
  date : Int
  event_log : EventLog
  information : Electricity
deriving DecidableEq, Repr

/-- `enum ParseError`. -/
inductive ParseError where
  | UnknownTelegramVersion
  | NoDate
  | DuplicateFieldId
  | MissingElectricity
  | ChildTelegramNotSupported
deriving DecidableEq, Repr

/-- Result of running (a part of) the parser: a value, a `ParseError`, or an
abort of the Rust process by a panic. -/
inductive PRes (α : Type) where
  | ok (a : α)
  | err (e : ParseError)
  | crashed
deriving DecidableEq, Repr

/-- The mutable local state of `parse_v10`, threaded through the line loop. -/
structure St where
  dsmr : List TelegramV10
  electricity : Electricity
  telegram_date : Int
  dates : List (Nat × Int)
  messages : List (Nat × List Char)
  severities : List (Nat × Severity)
  seen_info_type : Bool
  has_electricity : Bool
  has_telegram_date : Bool
deriving DecidableEq, Repr

/-- Type of the opaque epoch-conversion collaborator
(`date_to_timestamp(yy, mmm, dd, hh, mm, ss, dst)`). -/
abbrev D2TS := Nat → Nat → Nat → Nat → Nat → Nat → Bool → Option Int

/-- A concrete total instance of the collaborator, used for witnesses. -/
def d2ts0 : D2TS := fun _ _ _ _ _ _ _ => some 0

/-- `c.to_digit(10)`. -/
def digitVal (c : Char) : Option Nat :=
  if c.isDigit then some (c.toNat - 48) else none

/-- Rust `str::parse::<u8>/<u16>` restricted to the two-character slices the
parser takes (an optional leading `+` is accepted by Rust's integer parser;
two digits never overflow `u8`). -/
def parseNum2 (l : List Char) : Option Nat :=
  match l with
  | [a, b] =>
    if a.isDigit ∧ b.isDigit then some (10 * (a.toNat - 48) + (b.toNat - 48))
    else if a = '+' ∧ b.isDigit then some (b.toNat - 48)
    else none
  | _ => none

/-- Rust slicing `&l[a..b]`, which panics unless `a ≤ b ≤ l.len()`. -/
def sliceR (l : List Char) (a b : Nat) : Option (List Char) :=
  if a ≤ b ∧ b ≤ l.length then some ((l.drop a).take (b - a)) else none

/-- `line.rfind(c)`: index of the last occurrence of `c`. -/
def rfindIdx (c : Char) (l : List Char) : Option Nat :=
  ((List.range l.length).filter (fun i => decide (l[i]? = some c))).getLast?

/-- `line.find(c)`: index of the first occurrence of `c`. -/
def ffindIdx (c : Char) (l : List Char) : Option Nat :=
  List.findIdx? (fun x => x = c) l

/-- Whether a line's leading tag byte is `c`. -/
def tagIs (c : Char) (l : List Char) : Bool :=
  decide (l.head? = some c)

/-- Split a character list at every newline (the pieces, in order). -/
def splitNL : List Char → List (List Char)
  | [] => [[]]
  | c :: r =>
    if c = '\n' then [] :: splitNL r
    else
      match splitNL r with
      | [] => [[c]]
      | h :: t => (c :: h) :: t

/-- Drop one trailing carriage return, as Rust's `str::lines` does. -/
def stripCR (l : List Char) : List Char :=
  if l.getLast? = some '\r' then l.dropLast else l

/-- Rust's `input.lines()`: split at `'\n'`, drop a final empty piece
(produced by a trailing newline), and strip one trailing `'\r'` per line. -/
def rustLines (s : String) : List (List Char) :=
  let ps := splitNL s.data
  let ps := if ps.getLast? = some [] then ps.dropLast else ps
  ps.map stripCR

/-- `get_month_as_uint`: fixed two-letter-prefix table, third character
disambiguating `Mar`/`May` and `Jun`/`Jul`; `0` for an unknown name. -/
def get_month_as_uint (s : List Char) : Nat :=
  let pre := s.dropLast
  if pre = ['J', 'a'] then 1
  else if pre = ['F', 'e'] then 2
  else if pre = ['A', 'p'] then 4
  else if pre = ['A', 'u'] then 8
  else if pre = ['S', 'e'] then 9
  else if pre = ['O', 'c'] then 10
  else if pre = ['N', 'o'] then 11
  else if pre = ['D', 'e'] then 12
  else if pre = ['M', 'a'] then (if s.getLast? = some 'y' then 3 else 5)
  else if pre = ['J', 'u'] then (if s.getLast? = some 'n' then 6 else 7)
  else 0

/-- The fixed-width field slicing shared by both date handlers:
`yy` at 0..2 (plus 2000), `dd` at 7..9, `hh` at 10..12, `mm` at 13..15,
`ss` at 16..18, month name at 3..6. -/
def decodeDateFields (date : List Char) : Option (Nat × Nat × Nat × Nat × Nat × Nat) := do
  let yys ← sliceR date 0 2
  let yy2 ← parseNum2 yys
  let dds ← sliceR date 7 9
  let dd ← parseNum2 dds
  let hhs ← sliceR date 10 12
  let hh ← parseNum2 hhs
  let mms ← sliceR date 13 15
  let mi ← parseNum2 mms
  let sss ← sliceR date 16 18
  let ss ← parseNum2 sss
  let mons ← sliceR date 3 6
  pure (2000 + yy2, get_month_as_uint mons, dd, hh, mi, ss)

/-- Decoding of a whole date token as done by the tag-`2` handler on `inner`:
the calendar fields by fixed-width slicing, and the daylight flag from the
second-to-last character of the token (`inner[inner.len() - 2] == 'S'`). -/
def decodeDateToken (s : List Char) : Option (Nat × Nat × Nat × Nat × Nat × Nat × Bool) := do
  let f ← decodeDateFields s
  if 2 ≤ s.length then
    let dts ← s[s.length - 2]?
    pure (f.1, f.2.1, f.2.2.1, f.2.2.2.1, f.2.2.2.2.1, f.2.2.2.2.2, dts = 'S')
  else none

/-- The tag-`2` handler: `inner = &bytes[5..line.rfind(')')]`, decode the
token, convert through the collaborator. `none` models a panic. -/
def decodeDateLine (d2ts : D2TS) (l : List Char) : Option Int := do
  let idx ← rfindIdx ')' l
  let inner ← sliceR l 5 idx
  let f ← decodeDateToken inner
  d2ts f.1 f.2.1 f.2.2.1 f.2.2.2.1 f.2.2.2.2.1 f.2.2.2.2.2.1 f.2.2.2.2.2.2

/-- One decoded event-log sub-field line (tag `3`). -/
inductive EvtItem where
  | sev (p : Nat × Severity)
  | msg (p : Nat × List Char)
  | dat (p : Nat × Int)
deriving DecidableEq, Repr

/-- The tag-`3` handler: discriminant at byte 2, event id as the decimal digit
at byte 4, value `val = &bytes[7..line.rfind(')')]`.  Discriminant `1` is a
severity (`H` at byte 7 means `High`), `2` a message (raw hex text), `3` a
date whose fields come from `val[..val.len()-4]` and whose daylight character
is `val[val.len()-2]`; any other discriminant is `unreachable!()`. -/
def decodeEvtLine (d2ts : D2TS) (l : List Char) : Option EvtItem := do
  let disc ← l[2]?
  let paren ← rfindIdx ')' l
  let val ← sliceR l 7 paren
  let eidC ← l[4]?
  let eid ← digitVal eidC
  if disc = '1' then do
    let b7 ← l[7]?
    pure (.sev (eid, if b7 = 'H' then Severity.High else Severity.Low))
  else if disc = '2' then
    pure (.msg (eid, val))
  else if disc = '3' then do
    if 4 ≤ val.length then
      let date := val.take (val.length - 4)
      let dts ← val[val.length - 2]?
      let f ← decodeDateFields date
      let t ← d2ts f.1 f.2.1 f.2.2.1 f.2.2.2.1 f.2.2.2.2.1 f.2.2.2.2.2 (dts = 'S')
      pure (.dat (eid, t))
    else none
  else none

/-- Rust's `f64` `FromStr` grammar: optional sign, then (case-insensitively)
`inf`/`infinity`/`nan`, or a mantissa with at most one dot and at least one
digit, optionally followed by `e`/`E`, an optional sign and a nonempty digit
string. -/
def isMantissa (m : List Char) : Bool :=
  m.all (fun c => c.isDigit || c = '.') && m.count '.' ≤ 1 && m.any Char.isDigit

/-- Exponent part of a float literal after the `e`/`E`. -/
def isExpDigits (e : List Char) : Bool :=
  let d := match e with
    | '+' :: r => r
    | '-' :: r => r
    | _ => e
  !d.isEmpty && d.all Char.isDigit

/-- Whether `val.parse::<f64>()` succeeds. -/
def isF64Lit (s : List Char) : Bool :=
  let body := match s with
    | '+' :: r => r
    | '-' :: r => r
    | _ => s
  let lower := body.map Char.toLower
  if lower = ['i', 'n', 'f'] ∨ lower = ['i', 'n', 'f', 'i', 'n', 'i', 't', 'y'] ∨
      lower = ['n', 'a', 'n'] then true
  else
    let m := body.takeWhile (fun c => !(c = 'e') && !(c = 'E'))
    let rest := body.drop m.length
    isMantissa m && (match rest with
      | [] => true
      | _ :: ex => isExpDigits ex)

/-- One decoded electricity field line (tag `7`). -/
inductive ElecField where
  | volt (phase : Nat) (v : F64)
  | curr (phase : Nat) (v : F64)
  | pw (phase : Nat) (v : F64)
  | totCons (v : F64)
  | totProd (v : F64)
deriving DecidableEq, Repr

/-- The tag-`7` handler's decoding: phase `bytes[4] - b'1'` with wrapping `u8`
subtraction followed by `assert!(phase <= 2)`, discriminant at byte 2,
value `&bytes[7..line.find('*')]` which must parse as `f64`; discriminant `0`
or beyond `4` is `unreachable!()`. -/
def decodeElecLine (l : List Char) : Option ElecField := do
  let b4 ← l[4]?
  let phase := (b4.toNat + 256 - 49) % 256
  if phase ≤ 2 then
    let disc ← l[2]?
    let star ← ffindIdx '*' l
    let val ← sliceR l 7 star
    if isF64Lit val = true then
      if disc = '0' ∨ '4' < disc then none
      else if disc = '1' then pure (.volt phase (.lit val))
      else if disc = '2' then pure (.curr phase (.lit val))
      else if disc = '3' then pure (.pw phase (.lit val))
      else if disc = '4' then
        pure (if b4 = '1' then .totCons (.lit val) else .totProd (.lit val))
      else none
    else none
  else none

/-- Apply a decoded electricity field to the accumulator. -/
def applyElec (f : ElecField) (el : Electricity) : Electricity :=
  match f with
  | .volt p v => { el with voltage := el.voltage.set p v }
  | .curr p v => { el with current := el.current.set p v }
  | .pw p v => { el with power := el.power.set p v }
  | .totCons v => { el with total_consumed := v }
  | .totProd v => { el with total_produced := v }

/-- Comparison by event id, as used by the three `sort_unstable_by` calls. -/
def keyLe {α : Type} (a b : Nat × α) : Prop := a.1 ≤ b.1

instance {α : Type} : DecidableRel (keyLe (α := α)) := fun a b => Nat.decLe a.1 b.1

/-- Sort an event list ascending by id. -/
def sortById {α : Type} (l : List (Nat × α)) : List (Nat × α) :=
  List.insertionSort keyLe l

/-- The position-wise merge loop at telegram end, including the per-position
id assertions (`none` models `assert!` failure, i.e. a crash). -/
def mergeEnts : List (Nat × Int) → List (Nat × Severity) → List (Nat × List Char) →
    Option EventLog
  | [], [], [] => some ⟨[], [], [], []⟩
  | d :: ds, s :: ss, m :: ms =>
    if d.1 = m.1 ∧ d.1 = s.1 then
      match mergeEnts ds ss ms with
      | none => none
      | some el => some ⟨d.1 :: el.ids, s.2 :: el.severities, d.2 :: el.dates, m.2 :: el.messages⟩
    else none
  | _, _, _ => none

/-- Event-log correlation at telegram end: three ascending sorts by id, the
two length assertions, then the position-wise merge. -/
def correlate (dates : List (Nat × Int)) (sevs : List (Nat × Severity))
    (msgs : List (Nat × List Char)) : Option EventLog :=
  let d := sortById dates
  let s := sortById sevs
  let m := sortById msgs
  if d.length = s.length ∧ d.length = m.length then mergeEnts d s m else none

/-- The zeroed electricity accumulator. -/
def initElec : Electricity :=
  ⟨[F64.zero, F64.zero, F64.zero], [F64.zero, F64.zero, F64.zero],
    [F64.zero, F64.zero, F64.zero], F64.zero, F64.zero⟩

/-- The accumulator state at the start of `parse_v10`. -/
def initSt : St :=
  ⟨[], initElec, 0, [], [], [], false, false, false⟩

/-- The reset performed on every tag-`1` line: all flags cleared, buffers
emptied, electricity zeroed; the output list is kept. -/
def resetKeep (st : St) : St :=
  { st with
    electricity := initElec, telegram_date := 0, dates := [], messages := [],
    severities := [], seen_info_type := false, has_electricity := false,
    has_telegram_date := false }

/-- The telegram-end branch of the tag-`1` handler: the `MissingElectricity`
and `NoDate` checks, correlation, push of the completed telegram, reset. -/
def endTelegram (st : St) : PRes St :=
  if st.has_electricity = false then .err .MissingElectricity
  else if st.has_telegram_date = false then .err .NoDate
  else
    match correlate st.dates st.severities st.messages with
    | none => .crashed
    | some ev =>
      .ok (resetKeep { st with
        dsmr := st.dsmr ++ [⟨st.telegram_date, ev, st.electricity⟩] })

/-- Dispatch of one nonempty line on its leading tag byte (the body of the
`for line in lines` loop). -/
def step (d2ts : D2TS) (st : St) (l : List Char) : PRes St :=
  match l.head? with
  | none => .crashed
  | some c =>
    if c = '1' then
      match l[2]? with
      | none => .crashed
      | some b2 =>
        if b2 = '1' then
          match l[4]? with
          | none => .crashed
          | some b4 =>
            if b4 ≠ '0' then .err .ChildTelegramNotSupported
            else .ok (resetKeep st)
        else if b2 = '2' then endTelegram st
        else .ok (resetKeep st)
    else if c = '2' then
      match decodeDateLine d2ts l with
      | none => .crashed
      | some t => .ok { st with telegram_date := t, has_telegram_date := true }
    else if c = '3' then
      match decodeEvtLine d2ts l with
      | none => .crashed
      | some (.sev x) => .ok { st with severities := st.severities ++ [x] }
      | some (.msg x) => .ok { st with messages := st.messages ++ [x] }
      | some (.dat x) => .ok { st with dates := st.dates ++ [x] }
    else if c = '4' then
      if st.seen_info_type = true then .err .DuplicateFieldId
      else .ok { st with seen_info_type := true }
    else if c = '7' then
      if st.seen_info_type = false then .err .MissingElectricity
      else
        match decodeElecLine l with
        | none => .crashed
        | some f => .ok { st with electricity := applyElec f st.electricity, has_electricity := true }
    else .ok st

/-- The line loop of `parse_v10`: empty lines are skipped, errors and panics
abort immediately. -/
def runLines (d2ts : D2TS) (st : St) : List (List Char) → PRes St
  | [] => .ok st
  | l :: ls =>
    if l.isEmpty then runLines d2ts st ls
    else
      match step d2ts st l with
      | .ok st' => runLines d2ts st' ls
      | .err e => .err e
      | .crashed => .crashed

/-- `parse_v10`: consume the header line, run the loop, return the list. -/
def parse_v10 (d2ts : D2TS) (input : String) : PRes (List TelegramV10) :=
  match runLines d2ts initSt ((rustLines input).drop 1) with
  | .ok st => .ok st.dsmr
  | .err e => .err e
  | .crashed => .crashed

/-- `parse`: the version check `&input[1..4] == "v10"` (which panics on an
input shorter than four bytes), then `parse_v10`. -/
def parse (d2ts : D2TS) (input : String) : PRes (List TelegramV10) :=
  if 4 ≤ input.data.length then
    if (input.data.drop 1).take 3 = ['v', '1', '0'] then parse_v10 d2ts input
    else .err .UnknownTelegramVersion
  else .crashed

/-- The telegram produced by one telegram's lines (its end-marker line
included), run in isolation from a fresh accumulator. -/
def segTelegram (d2ts : D2TS) (chunk : List (List Char)) : Option TelegramV10 :=
  match runLines d2ts initSt chunk with
  | .ok st => st.dsmr.head?
  | _ => none

/-- A telegram-end marker line: tag `1`, byte 2 equal to `2`. -/
def isEndLine (l : List Char) : Bool :=
  tagIs '1' l && decide (l[2]? = some '2')

/-- A nested/child telegram marker line: tag `1`, byte 2 equal to `1`, byte 4
present and different from `0`. -/
def isChildLine (l : List Char) : Bool :=
  tagIs '1' l && decide (l[2]? = some '1') &&
    ((l[4]?).isSome && !decide (l[4]? = some '0'))

/-- A boundary line that merely resets the accumulator: tag `1`, neither a
child marker (which errors) nor an end marker, with the bytes the handler
reads present. -/
def isStartLine (l : List Char) : Bool :=
  tagIs '1' l &&
    ((decide (l[2]? = some '1') && decide (l[4]? = some '0')) ||
     ((l[2]?).isSome && !decide (l[2]? = some '1') && !decide (l[2]? = some '2')))

/-- Any tag-`1` line resets the accumulator after its own handling. -/
def isResetLine (l : List Char) : Bool := tagIs '1' l

/-- A line that one telegram's body may contain: empty, an ignored tag, or a
recognised field line whose handler succeeds (no panic). Boundary lines (tag
`1`) are not body lines. -/
def wfBodyLine (d2ts : D2TS) (l : List Char) : Bool :=
  match l.head? with
  | none => true
  | some c =>
    if c = '1' then false
    else if c = '2' then (decodeDateLine d2ts l).isSome
    else if c = '3' then (decodeEvtLine d2ts l).isSome
    else if c = '7' then (decodeElecLine l).isSome
    else true

/-- Lines carrying the information-type marker or an electricity field. -/
def tag47 (l : List Char) : Bool := tagIs '4' l || tagIs '7' l

/-- The marker/electricity discipline of one telegram: exactly one
information-type marker, at least one electricity field, and every
electricity field after the marker. -/
def wfOrderB (p : List (List Char)) : Bool :=
  match p.filter tag47 with
  | [] => false
  | i :: rest => tagIs '4' i && !rest.isEmpty && rest.all (tagIs '7')

/-- The severity pair contributed by a line, if any. -/
def evtSevOf (d2ts : D2TS) (l : List Char) : Option (Nat × Severity) :=
  if tagIs '3' l then
    match decodeEvtLine d2ts l with
    | some (.sev x) => some x
    | _ => none
  else none

/-- The message pair contributed by a line, if any. -/
def evtMsgOf (d2ts : D2TS) (l : List Char) : Option (Nat × List Char) :=
  if tagIs '3' l then
    match decodeEvtLine d2ts l with
    | some (.msg x) => some x
    | _ => none
  else none

/-- The date pair contributed by a line, if any. -/
def evtDatOf (d2ts : D2TS) (l : List Char) : Option (Nat × Int) :=
  if tagIs '3' l then
    match decodeEvtLine d2ts l with
    | some (.dat x) => some x
    | _ => none
  else none

/-- All severity pairs of a line sequence, in arrival order. -/
def collectSevs (d2ts : D2TS) (p : List (List Char)) : List (Nat × Severity) :=
  p.filterMap (evtSevOf d2ts)

/-- All message pairs of a line sequence, in arrival order. -/
def collectMsgs (d2ts : D2TS) (p : List (List Char)) : List (Nat × List Char) :=
  p.filterMap (evtMsgOf d2ts)

/-- All date pairs of a line sequence, in arrival order. -/
def collectDats (d2ts : D2TS) (p : List (List Char)) : List (Nat × Int) :=
  p.filterMap (evtDatOf d2ts)

/-- The telegram date after a line sequence: the last successfully decoded
tag-`2` line, `0` initially. -/
def tdOf (d2ts : D2TS) (p : List (List Char)) : Int :=
  p.foldl
    (fun acc l =>
      if tagIs '2' l then
        match decodeDateLine d2ts l with
        | some t => t
        | none => acc
      else acc) 0

/-- The electricity accumulator after a line sequence. -/
def elecOf (p : List (List Char)) : Electricity :=
  p.foldl
    (fun el l =>
      if tagIs '7' l then
        match decodeElecLine l with
        | some f => applyElec f el
        | none => el
      else el) initElec

/-- The lines of the current (unfinished) telegram: everything after the last
boundary line, or the whole sequence if there is none. -/
def sinceReset (p : List (List Char)) : List (List Char) :=
  p.foldl (fun acc l => if isResetLine l then [] else acc ++ [l]) []

/-- The version check of `parse` succeeds: at least four bytes, bytes 1..4
reading `v10`. -/
def versionOk (input : String) : Prop :=
  4 ≤ input.data.length ∧ (input.data.drop 1).take 3 = ['v', '1', '0']

instance (input : String) : Decidable (versionOk input) :=
  inferInstanceAs (Decidable (4 ≤ input.data.length ∧ (input.data.drop 1).take 3 = ['v', '1', '0']))

/-- The event ids of a pair list. -/
def idsOf {α : Type} (l : List (Nat × α)) : List Nat := l.map Prod.fst

/-- A well-formed telegram body: every line is a valid body line, the
marker/electricity discipline holds, a date field is present, and the three
event sub-field kinds carry the same multiset of event ids. -/
def wfBody (d2ts : D2TS) (p : List (List Char)) : Prop :=
  (∀ l ∈ p, wfBodyLine d2ts l = true) ∧
  wfOrderB p = true ∧
  p.any (tagIs '2') = true ∧
  List.Perm (idsOf (collectDats d2ts p)) (idsOf (collectSevs d2ts p)) ∧
  List.Perm (idsOf (collectDats d2ts p)) (idsOf (collectMsgs d2ts p))

/-- A well-formed telegram chunk: optional boundary/start lines, a
well-formed body, and its end-marker line. -/
def wfChunk (d2ts : D2TS) (c : List (List Char)) : Prop :=
  ∃ starts body e, c = starts ++ body ++ [e] ∧
    (∀ l ∈ starts, isStartLine l = true) ∧ wfBody d2ts body ∧ isEndLine e = true

/-- Whether a run result is a success. -/
def resOk {α : Type} : PRes α → Bool
  | .ok _ => true
  | _ => false

/-- A well-formed telegram body used by concrete witnesses. -/
def exBody : List (List Char) :=
  List.map String.data
    ["4", "7.1.1(02.5*W)", "2....23-Jan-05 10:20:30SX)", "3.1.1(HH)", "3.2.1(4142)",
      "3.3.1(x23-Jan-05 10:20:30abSc)"]

/-- The same telegram body with its event sub-field lines permuted. -/
def exBodyPerm : List (List Char) :=
  List.map String.data
    ["4", "3.3.1(x23-Jan-05 10:20:30abSc)", "7.1.1(02.5*W)", "3.2.1(4142)",
      "2....23-Jan-05 10:20:30SX)", "3.1.1(HH)"]

/-- A telegram end-marker line used by concrete witnesses. -/
def exEnd : List Char := "1.2.1(E)".data

/-- A complete well-formed one-telegram input used by concrete witnesses. -/
def exInput : String :=
  "/v10\n4\n7.1.1(02.5*W)\n2....23-Jan-05 10:20:30SX)\n3.1.1(HH)\n3.2.1(4142)\n3.3.1(x23-Jan-05 10:20:30abSc)\n1.2.1(E)\n"

/-- The telegram `exBody ++ [exEnd]` parses to (under `d2ts0`). -/
def exTele : TelegramV10 :=
  ⟨0, ⟨[1], [Severity.High], [0], [['1', '4', '2']]⟩,
    ⟨[F64.zero, F64.zero, F64.zero], [F64.lit ['2', '.', '5'], F64.zero, F64.zero],
      [F64.zero, F64.zero, F64.zero], F64.zero, F64.zero⟩⟩

/-- The accumulator state after the info marker and one electricity field. -/
def exStC8 : St :=
  ⟨[], ⟨[F64.zero, F64.zero, F64.zero], [F64.lit ['2', '.', '5'], F64.zero, F64.zero],
    [F64.zero, F64.zero, F64.zero], F64.zero, F64.zero⟩, 0, [], [], [], true, true, false⟩

/-- An accumulator state holding one fully correlated event id. -/
def exStC1 : St :=
  ⟨[], initElec, 0, [(1, 0)], [(1, ['1'])], [(1, Severity.High)], false, true, true⟩

/-- All event ids held anywhere in the accumulator state are single decimal
digits. -/
def IdsOk (st : St) : Prop :=
  (∀ x ∈ st.dates, x.1 < 10) ∧ (∀ x ∈ st.severities, x.1 < 10) ∧
  (∀ x ∈ st.messages, x.1 < 10) ∧
  (∀ t ∈ st.dsmr, ∀ i ∈ t.event_log.ids, i < 10)

theorem tagIs_iff {c : Char} {l : List Char} : tagIs c l = true ↔ l.head? = some c := by
  simp [tagIs]

theorem isEmpty_false_of_head {c : Char} {l : List Char} (h : l.head? = some c) :
    l.isEmpty = false := by
  cases l with
  | nil => simp at h
  | cons a r => rfl

theorem resetKeep_eq (st : St) : resetKeep st = { initSt with dsmr := st.dsmr } := rfl

theorem runLines_append (d2ts : D2TS) (st : St) (a b : List (List Char)) :
    runLines d2ts st (a ++ b) =
      match runLines d2ts st a with
      | .ok st' => runLines d2ts st' b
      | .err e => .err e
      | .crashed => .crashed := by
  induction a generalizing st with
  | nil => simp [runLines]
  | cons l ls ih =>
    simp only [List.cons_append, runLines]
    by_cases he : l.isEmpty
    · simp [he, ih]
    · simp only [if_neg he]
      cases h : step d2ts st l <;> simp [ih]

theorem runLines_err_mono (d2ts : D2TS) (st : St) (a b : List (List Char)) (e : ParseError)
    (h : runLines d2ts st a = .err e) : runLines d2ts st (a ++ b) = .err e := by
  rw [runLines_append, h]

theorem runLines_crashed_mono (d2ts : D2TS) (st : St) (a b : List (List Char))
    (h : runLines d2ts st a = .crashed) : runLines d2ts st (a ++ b) = .crashed := by
  rw [runLines_append, h]

theorem runLines_err_split (d2ts : D2TS) (e : ParseError) :
    ∀ (p : List (List Char)) (st : St), runLines d2ts st p = .err e →
      ∃ pre l post st', p = pre ++ l :: post ∧ runLines d2ts st pre = .ok st' ∧
        l.isEmpty = false ∧ step d2ts st' l = .err e := by
  intro p
  induction p with
  | nil => intro st h; simp [runLines] at h
  | cons l ls ih =>
    intro st h
    by_cases he : l.isEmpty
    · rw [runLines, if_pos he] at h
      obtain ⟨pre, l', post, st', hsp, hok, hne, hst⟩ := ih st h
      exact ⟨l :: pre, l', post, st', by simp [hsp], by rw [runLines, if_pos he]; exact hok,
        hne, hst⟩
    · rw [runLines, if_neg he] at h
      cases hs : step d2ts st l with
      | ok st1 =>
        rw [hs] at h
        obtain ⟨pre, l', post, st', hsp, hok, hne, hst⟩ := ih st1 h
        refine ⟨l :: pre, l', post, st', by simp [hsp], ?_, hne, hst⟩
        rw [runLines, if_neg he, hs]; exact hok
      | err e' =>
        rw [hs] at h
        cases h
        exact ⟨[], l, ls, st, rfl, rfl, by simp [he], hs⟩
      | crashed => rw [hs] at h; cases h

theorem step_date {d2ts : D2TS} {st : St} {l : List Char} {t : Int}
    (h : l.head? = some '2') (hd : decodeDateLine d2ts l = some t) :
    step d2ts st l = .ok { st with telegram_date := t, has_telegram_date := true } := by
  simp [step, h, hd]

theorem step_sev {d2ts : D2TS} {st : St} {l : List Char} {x : Nat × Severity}
    (h : l.head? = some '3') (hd : decodeEvtLine d2ts l = some (.sev x)) :
    step d2ts st l = .ok { st with severities := st.severities ++ [x] } := by
  simp [step, h, hd]

theorem step_msg {d2ts : D2TS} {st : St} {l : List Char} {x : Nat × List Char}
    (h : l.head? = some '3') (hd : decodeEvtLine d2ts l = some (.msg x)) :
    step d2ts st l = .ok { st with messages := st.messages ++ [x] } := by
  simp [step, h, hd]

theorem step_dat {d2ts : D2TS} {st : St} {l : List Char} {x : Nat × Int}
    (h : l.head? = some '3') (hd : decodeEvtLine d2ts l = some (.dat x)) :
    step d2ts st l = .ok { st with dates := st.dates ++ [x] } := by
  simp [step, h, hd]

theorem step_info {d2ts : D2TS} {st : St} {l : List Char}
    (h : l.head? = some '4') (hs : st.seen_info_type = false) :
    step d2ts st l = .ok { st with seen_info_type := true } := by
  simp [step, h, hs]

theorem step_info_dup {d2ts : D2TS} {st : St} {l : List Char}
    (h : l.head? = some '4') (hs : st.seen_info_type = true) :
    step d2ts st l = .err .DuplicateFieldId := by
  simp [step, h, hs]

theorem step_elec {d2ts : D2TS} {st : St} {l : List Char} {f : ElecField}
    (h : l.head? = some '7') (hs : st.seen_info_type = true)
    (hd : decodeElecLine l = some f) :
    step d2ts st l =
      .ok { st with electricity := applyElec f st.electricity, has_electricity := true } := by
  simp [step, h, hs, hd]

theorem step_elec_early {d2ts : D2TS} {st : St} {l : List Char}
    (h : l.head? = some '7') (hs : st.seen_info_type = false) :
    step d2ts st l = .err .MissingElectricity := by
  simp [step, h, hs]

theorem step_other {d2ts : D2TS} {st : St} {l : List Char} {c : Char}
    (h : l.head? = some c) (h1 : c ≠ '1') (h2 : c ≠ '2') (h3 : c ≠ '3')
    (h4 : c ≠ '4') (h7 : c ≠ '7') :
    step d2ts st l = .ok st := by
  simp [step, h, h1, h2, h3, h4, h7]

theorem step_end {d2ts : D2TS} {st : St} {l : List Char}
    (h : isEndLine l = true) : step d2ts st l = endTelegram st := by
  rw [isEndLine, Bool.and_eq_true, tagIs_iff, decide_eq_true_eq] at h
  obtain ⟨h1, h2⟩ := h
  simp [step, h1, h2]

theorem step_child {d2ts : D2TS} {st : St} {l : List Char}
    (h : isChildLine l = true) : step d2ts st l = .err .ChildTelegramNotSupported := by
  rw [isChildLine, Bool.and_eq_true, Bool.and_eq_true, Bool.and_eq_true, tagIs_iff,
    decide_eq_true_eq] at h
  obtain ⟨⟨h1, h2⟩, h4s, h4⟩ := h
  cases hb4 : l[4]? with
  | none => rw [hb4] at h4s; simp at h4s
  | some b4 =>
    rw [hb4] at h4
    simp only [Bool.not_eq_true', decide_eq_false_iff_not] at h4
    have h4' : b4 ≠ '0' := fun hc => h4 (by rw [hc])
    simp [step, h1, h2, hb4, h4']

theorem step_start {d2ts : D2TS} {st : St} {l : List Char}
    (h : isStartLine l = true) : step d2ts st l = .ok (resetKeep st) := by
  rw [isStartLine, Bool.and_eq_true, tagIs_iff, Bool.or_eq_true, Bool.and_eq_true,
    Bool.and_eq_true, Bool.and_eq_true] at h
  obtain ⟨h1, ⟨h2, h4⟩ | ⟨⟨h2s, hne1⟩, hne2⟩⟩ := h
  · rw [decide_eq_true_eq] at h2 h4
    simp [step, h1, h2, h4]
  · cases hb2 : l[2]? with
    | none => rw [hb2] at h2s; simp at h2s
    | some b2 =>
      rw [hb2] at hne1 hne2
      simp only [Bool.not_eq_true', decide_eq_false_iff_not] at hne1 hne2
      have e1 : b2 ≠ '1' := fun hc => hne1 (by rw [hc])
      have e2 : b2 ≠ '2' := fun hc => hne2 (by rw [hc])
      simp [step, h1, hb2, e1, e2]

theorem endTelegram_ok {st : St} {ev : EventLog}
    (h1 : st.has_electricity = true) (h2 : st.has_telegram_date = true)
    (hc : correlate st.dates st.severities st.messages = some ev) :
    endTelegram st =
      .ok { initSt with dsmr := st.dsmr ++ [⟨st.telegram_date, ev, st.electricity⟩] } := by
  simp [endTelegram, h1, h2, hc, resetKeep_eq]

theorem endTelegram_missing {st : St} (h : st.has_electricity = false) :
    endTelegram st = .err .MissingElectricity := by
  simp [endTelegram, h]

theorem endTelegram_nodate {st : St} (h1 : st.has_electricity = true)
    (h2 : st.has_telegram_date = false) : endTelegram st = .err .NoDate := by
  simp [endTelegram, h1, h2]

theorem endTelegram_ok_inv {st st' : St} (h : endTelegram st = .ok st') :
    ∃ D, st' = { initSt with dsmr := D } := by
  unfold endTelegram at h
  split at h
  · cases h
  · split at h
    · cases h
    · split at h
      · cases h
      · cases h
        exact ⟨_, rfl⟩

instance {α : Type} : IsTotal (Nat × α) keyLe := ⟨fun a b => Nat.le_total a.1 b.1⟩

instance {α : Type} : IsTrans (Nat × α) keyLe := ⟨fun _ _ _ h1 h2 => Nat.le_trans h1 h2⟩

theorem sortById_sorted {α : Type} (l : List (Nat × α)) : List.Sorted keyLe (sortById l) :=
  List.sorted_insertionSort keyLe l

theorem sortById_perm {α : Type} (l : List (Nat × α)) : List.Perm (sortById l) l :=
  List.perm_insertionSort keyLe l

theorem idsOf_sorted {α : Type} {l : List (Nat × α)} (h : List.Sorted keyLe l) :
    List.Sorted (· ≤ ·) (idsOf l) := by
  unfold idsOf
  exact List.pairwise_map.mpr h

theorem idsOf_perm {α : Type} {l1 l2 : List (Nat × α)} (h : List.Perm l1 l2) :
    List.Perm (idsOf l1) (idsOf l2) := h.map Prod.fst

theorem mergeEnts_of_ids_eq :
    ∀ (d : List (Nat × Int)) (s : List (Nat × Severity)) (m : List (Nat × List Char)),
      idsOf d = idsOf s → idsOf d = idsOf m →
      ∃ el, mergeEnts d s m = some el ∧ el.ids = idsOf d := by
  intro d
  induction d with
  | nil =>
    intro s m hs hm
    cases s with
    | cons b ss => simp [idsOf] at hs
    | nil =>
      cases m with
      | cons c ms => simp [idsOf] at hm
      | nil => exact ⟨⟨[], [], [], []⟩, rfl, rfl⟩
  | cons a ds ih =>
    intro s m hs hm
    cases s with
    | nil => simp [idsOf] at hs
    | cons b ss =>
      cases m with
      | nil => simp [idsOf] at hm
      | cons c ms =>
        simp only [idsOf, List.map_cons, List.cons.injEq] at hs hm
        obtain ⟨hb, hs'⟩ := hs
        obtain ⟨hc, hm'⟩ := hm
        obtain ⟨el, hmerge, hids⟩ := ih ss ms hs' hm'
        refine ⟨⟨a.1 :: el.ids, b.2 :: el.severities, a.2 :: el.dates, c.2 :: el.messages⟩,
          ?_, ?_⟩
        · simp only [mergeEnts]
          rw [if_pos ⟨hc, hb⟩, hmerge]
        · simp [idsOf, hids]

theorem correlate_of_perms {d : List (Nat × Int)} {s : List (Nat × Severity)}
    {m : List (Nat × List Char)}
    (hs : List.Perm (idsOf d) (idsOf s)) (hm : List.Perm (idsOf d) (idsOf m)) :
    ∃ el, correlate d s m = some el ∧ el.ids = idsOf (sortById d) ∧
      List.Sorted (· ≤ ·) el.ids := by
  have pd : List.Perm (idsOf (sortById d)) (idsOf (sortById s)) :=
    (idsOf_perm (sortById_perm d)).trans (hs.trans (idsOf_perm (sortById_perm s)).symm)
  have pm : List.Perm (idsOf (sortById d)) (idsOf (sortById m)) :=
    (idsOf_perm (sortById_perm d)).trans (hm.trans (idsOf_perm (sortById_perm m)).symm)
  have e1 : idsOf (sortById d) = idsOf (sortById s) :=
    List.eq_of_perm_of_sorted pd (idsOf_sorted (sortById_sorted d))
      (idsOf_sorted (sortById_sorted s))
  have e2 : idsOf (sortById d) = idsOf (sortById m) :=
    List.eq_of_perm_of_sorted pm (idsOf_sorted (sortById_sorted d))
      (idsOf_sorted (sortById_sorted m))
  have len1 : (sortById d).length = (sortById s).length := by
    have := congrArg List.length e1
    simpa [idsOf] using this
  have len2 : (sortById d).length = (sortById m).length := by
    have := congrArg List.length e2
    simpa [idsOf] using this
  obtain ⟨el, hme, hids⟩ := mergeEnts_of_ids_eq (sortById d) (sortById s) (sortById m) e1 e2
  refine ⟨el, ?_, hids, ?_⟩
  · unfold correlate
    rw [if_pos ⟨len1, len2⟩]
    exact hme
  · rw [hids]
    exact idsOf_sorted (sortById_sorted d)

theorem sorted_nodup_perm_eq {α : Type} {l1 l2 : List (Nat × α)}
    (h : List.Perm l1 l2) (h1 : List.Sorted keyLe l1) (h2 : List.Sorted keyLe l2)
    (hnd : (idsOf l1).Nodup) : l1 = l2 := by
  have hnd2 : (idsOf l2).Nodup := ((idsOf_perm h).nodup_iff).mp hnd
  have p1 : List.Pairwise (fun a b : Nat × α => a.1 ≤ b.1 ∧ a.1 ≠ b.1) l1 :=
    h1.and (List.pairwise_map.mp hnd)
  have p2 : List.Pairwise (fun a b : Nat × α => a.1 ≤ b.1 ∧ a.1 ≠ b.1) l2 :=
    h2.and (List.pairwise_map.mp hnd2)
  haveI : IsAntisymm (Nat × α) (fun a b => a.1 < b.1) :=
    ⟨fun a b hab hba => absurd (lt_trans hab hba) (lt_irrefl _)⟩
  exact List.eq_of_perm_of_sorted (r := fun a b => a.1 < b.1) h
    (p1.imp fun hab => lt_of_le_of_ne hab.1 hab.2)
    (p2.imp fun hab => lt_of_le_of_ne hab.1 hab.2)

theorem sortById_congr_perm {α : Type} {l1 l2 : List (Nat × α)} (h : List.Perm l1 l2)
    (hnd : (idsOf l1).Nodup) : sortById l1 = sortById l2 :=
  sorted_nodup_perm_eq ((sortById_perm l1).trans (h.trans (sortById_perm l2).symm))
    (sortById_sorted l1) (sortById_sorted l2)
    (((idsOf_perm (sortById_perm l1)).nodup_iff).mpr hnd)

theorem correlate_congr {d d' : List (Nat × Int)} {s s' : List (Nat × Severity)}
    {m m' : List (Nat × List Char)}
    (hd : List.Perm d d') (hs : List.Perm s s') (hm : List.Perm m m')
    (n1 : (idsOf d).Nodup) (n2 : (idsOf s).Nodup) (n3 : (idsOf m).Nodup) :
    correlate d s m = correlate d' s' m' := by
  unfold correlate
  rw [sortById_congr_perm hd n1, sortById_congr_perm hs n2, sortById_congr_perm hm n3]

theorem collectSevs_append (d2ts : D2TS) (p q : List (List Char)) :
    collectSevs d2ts (p ++ q) = collectSevs d2ts p ++ collectSevs d2ts q := by
  simp [collectSevs]

theorem collectMsgs_append (d2ts : D2TS) (p q : List (List Char)) :
    collectMsgs d2ts (p ++ q) = collectMsgs d2ts p ++ collectMsgs d2ts q := by
  simp [collectMsgs]

theorem collectDats_append (d2ts : D2TS) (p q : List (List Char)) :
    collectDats d2ts (p ++ q) = collectDats d2ts p ++ collectDats d2ts q := by
  simp [collectDats]

theorem tdOf_append_single (d2ts : D2TS) (p : List (List Char)) (l : List Char) :
    tdOf d2ts (p ++ [l]) =
      if tagIs '2' l then
        match decodeDateLine d2ts l with
        | some t => t
        | none => tdOf d2ts p
      else tdOf d2ts p := by
  simp [tdOf, List.foldl_append]

theorem elecOf_append_single (p : List (List Char)) (l : List Char) :
    elecOf (p ++ [l]) =
      if tagIs '7' l then
        match decodeElecLine l with
        | some f => applyElec f (elecOf p)
        | none => elecOf p
      else elecOf p := by
  simp [elecOf, List.foldl_append]

theorem sinceReset_append_single (p : List (List Char)) (l : List Char) :
    sinceReset (p ++ [l]) = if isResetLine l then [] else sinceReset p ++ [l] := by
  simp [sinceReset, List.foldl_append]

theorem evt_collect_sev {d2ts : D2TS} {l : List Char} {x : Nat × Severity}
    (h : l.head? = some '3') (hd : decodeEvtLine d2ts l = some (.sev x)) :
    evtSevOf d2ts l = some x ∧ evtMsgOf d2ts l = none ∧ evtDatOf d2ts l = none := by
  refine ⟨?_, ?_, ?_⟩ <;> simp [evtSevOf, evtMsgOf, evtDatOf, tagIs, h, hd]

theorem evt_collect_msg {d2ts : D2TS} {l : List Char} {x : Nat × List Char}
    (h : l.head? = some '3') (hd : decodeEvtLine d2ts l = some (.msg x)) :
    evtSevOf d2ts l = none ∧ evtMsgOf d2ts l = some x ∧ evtDatOf d2ts l = none := by
  refine ⟨?_, ?_, ?_⟩ <;> simp [evtSevOf, evtMsgOf, evtDatOf, tagIs, h, hd]

theorem evt_collect_dat {d2ts : D2TS} {l : List Char} {x : Nat × Int}
    (h : l.head? = some '3') (hd : decodeEvtLine d2ts l = some (.dat x)) :
    evtSevOf d2ts l = none ∧ evtMsgOf d2ts l = none ∧ evtDatOf d2ts l = some x := by
  refine ⟨?_, ?_, ?_⟩ <;> simp [evtSevOf, evtMsgOf, evtDatOf, tagIs, h, hd]

theorem evt_collect_other {d2ts : D2TS} {l : List Char} {c : Char}
    (h : l.head? = some c) (h3 : c ≠ '3') :
    evtSevOf d2ts l = none ∧ evtMsgOf d2ts l = none ∧ evtDatOf d2ts l = none := by
  refine ⟨?_, ?_, ?_⟩ <;> simp [evtSevOf, evtMsgOf, evtDatOf, tagIs, h, h3]

theorem runLines_body (d2ts : D2TS) (p : List (List Char)) (D : List TelegramV10)
    (hwf : ∀ l ∈ p, wfBodyLine d2ts l = true)
    (h7 : ∀ a l b, p = a ++ l :: b → tagIs '7' l = true → a.any (tagIs '4') = true)
    (h4 : ∀ a l b, p = a ++ l :: b → tagIs '4' l = true → a.any (tagIs '4') = false) :
    runLines d2ts { initSt with dsmr := D } p =
      .ok ⟨D, elecOf p, tdOf d2ts p, collectDats d2ts p, collectMsgs d2ts p,
        collectSevs d2ts p, p.any (tagIs '4'), p.any (tagIs '7'), p.any (tagIs '2')⟩ := by
  induction p using List.reverseRecOn with
  | nil => rfl
  | append_singleton q l ih =>
    have hwf' : ∀ x ∈ q, wfBodyLine d2ts x = true := fun x hx => hwf x (by simp [hx])
    have h7' : ∀ a x b, q = a ++ x :: b → tagIs '7' x = true → a.any (tagIs '4') = true := by
      intro a x b hsp ht
      exact h7 a x (b ++ [l]) (by simp [hsp]) ht
    have h4' : ∀ a x b, q = a ++ x :: b → tagIs '4' x = true → a.any (tagIs '4') = false := by
      intro a x b hsp ht
      exact h4 a x (b ++ [l]) (by simp [hsp]) ht
    have hq := ih hwf' h7' h4'
    rw [runLines_append, hq]
    show runLines d2ts _ [l] = _
    cases hcl : l.head? with
    | none =>
      have hl : l = [] := by cases l <;> simp_all
      subst hl
      simp [runLines, tdOf_append_single, elecOf_append_single, collectDats_append,
        collectMsgs_append, collectSevs_append, collectDats, collectMsgs, collectSevs,
        evtSevOf, evtMsgOf, evtDatOf, tagIs]
    | some c =>
      have he : l.isEmpty = false := isEmpty_false_of_head hcl
      have hw := hwf l (by simp)
      simp only [wfBodyLine, hcl] at hw
      by_cases e1 : c = '1'
      · rw [if_pos e1] at hw
        exact absurd hw (by simp)
      rw [if_neg e1] at hw
      by_cases e2 : c = '2'
      · subst e2
        rw [if_pos rfl] at hw
        obtain ⟨t, ht⟩ := Option.isSome_iff_exists.mp hw
        simp only [runLines, he, Bool.false_eq_true, if_false, step_date hcl ht]
        simp [tdOf_append_single, elecOf_append_single, collectDats_append,
          collectMsgs_append, collectSevs_append, collectDats, collectMsgs, collectSevs,
          evtSevOf, evtMsgOf, evtDatOf, tagIs, hcl, ht]
      rw [if_neg e2] at hw
      by_cases e3 : c = '3'
      · subst e3
        rw [if_pos rfl] at hw
        obtain ⟨it, hit⟩ := Option.isSome_iff_exists.mp hw
        cases it with
        | sev x =>
          obtain ⟨c1, c2, c3⟩ := evt_collect_sev hcl hit
          simp only [runLines, he, Bool.false_eq_true, if_false, step_sev hcl hit]
          simp [tdOf_append_single, elecOf_append_single, collectDats_append,
            collectMsgs_append, collectSevs_append, collectDats, collectMsgs, collectSevs,
            c1, c2, c3, tagIs, hcl]
        | msg x =>
          obtain ⟨c1, c2, c3⟩ := evt_collect_msg hcl hit
          simp only [runLines, he, Bool.false_eq_true, if_false, step_msg hcl hit]
          simp [tdOf_append_single, elecOf_append_single, collectDats_append,
            collectMsgs_append, collectSevs_append, collectDats, collectMsgs, collectSevs,
            c1, c2, c3, tagIs, hcl]
        | dat x =>
          obtain ⟨c1, c2, c3⟩ := evt_collect_dat hcl hit
          simp only [runLines, he, Bool.false_eq_true, if_false, step_dat hcl hit]
          simp [tdOf_append_single, elecOf_append_single, collectDats_append,
            collectMsgs_append, collectSevs_append, collectDats, collectMsgs, collectSevs,
            c1, c2, c3, tagIs, hcl]
      by_cases e4 : c = '4'
      · subst e4
        have hseen : q.any (tagIs '4') = false :=
          h4 q l [] rfl (by rw [tagIs_iff]; exact hcl)
        have hstep := @step_info d2ts ⟨D, elecOf q, tdOf d2ts q, collectDats d2ts q,
          collectMsgs d2ts q, collectSevs d2ts q, q.any (tagIs '4'), q.any (tagIs '7'),
          q.any (tagIs '2')⟩ l hcl hseen
        simp only [runLines, he, Bool.false_eq_true, if_false, hstep]
        obtain ⟨c1, c2, c3⟩ := @evt_collect_other d2ts l '4' hcl (by decide)
        simp [tdOf_append_single, elecOf_append_single, collectDats_append,
          collectMsgs_append, collectSevs_append, collectDats, collectMsgs, collectSevs,
          c1, c2, c3, tagIs, hcl]
      by_cases e7 : c = '7'
      · subst e7
        rw [if_pos rfl] at hw
        obtain ⟨f, hf⟩ := Option.isSome_iff_exists.mp hw
        have hseen : q.any (tagIs '4') = true :=
          h7 q l [] rfl (by rw [tagIs_iff]; exact hcl)
        have hstep := @step_elec d2ts ⟨D, elecOf q, tdOf d2ts q, collectDats d2ts q,
          collectMsgs d2ts q, collectSevs d2ts q, q.any (tagIs '4'), q.any (tagIs '7'),
          q.any (tagIs '2')⟩ l f hcl hseen hf
        simp only [runLines, he, Bool.false_eq_true, if_false, hstep]
        obtain ⟨c1, c2, c3⟩ := @evt_collect_other d2ts l '7' hcl (by decide)
        simp [tdOf_append_single, elecOf_append_single, collectDats_append,
          collectMsgs_append, collectSevs_append, collectDats, collectMsgs, collectSevs,
          c1, c2, c3, tagIs, hcl, hf]
      · simp only [runLines, he, Bool.false_eq_true, if_false,
          step_other hcl e1 e2 e3 e4 e7]
        obtain ⟨c1, c2, c3⟩ := @evt_collect_other d2ts l c hcl e3
        simp [tdOf_append_single, elecOf_append_single, collectDats_append,
          collectMsgs_append, collectSevs_append, collectDats, collectMsgs, collectSevs,
          c1, c2, c3, tagIs, hcl, e1, e2, e4, e7]

theorem tag47_of_4 {l : List Char} (h : tagIs '4' l = true) : tag47 l = true := by
  simp [tag47, h]

theorem tag47_of_7 {l : List Char} (h : tagIs '7' l = true) : tag47 l = true := by
  simp [tag47, h]

theorem not_tag4_of_7 {l : List Char} (h : tagIs '7' l = true) : tagIs '4' l = false := by
  rw [tagIs_iff] at h
  simp [tagIs, h]

theorem not_tag7_of_4 {l : List Char} (h : tagIs '4' l = true) : tagIs '7' l = false := by
  rw [tagIs_iff] at h
  simp [tagIs, h]

theorem ord7_of_wfOrderB {p : List (List Char)} (h : wfOrderB p = true) :
    ∀ a l b, p = a ++ l :: b → tagIs '7' l = true → a.any (tagIs '4') = true := by
  intro a l b hsp h7
  subst hsp
  unfold wfOrderB at h
  rw [List.filter_append, List.filter_cons, if_pos (tag47_of_7 h7)] at h
  cases hfa : a.filter tag47 with
  | nil =>
    rw [hfa, List.nil_append] at h
    simp only [Bool.and_eq_true] at h
    rw [not_tag4_of_7 h7] at h
    exact absurd h.1.1 (by simp)
  | cons i r =>
    rw [hfa, List.cons_append] at h
    simp only [Bool.and_eq_true] at h
    have hi : i ∈ a.filter tag47 := by rw [hfa]; exact List.mem_cons_self _ _
    exact List.any_eq_true.mpr ⟨i, List.mem_of_mem_filter hi, h.1.1⟩

theorem ord4_of_wfOrderB {p : List (List Char)} (h : wfOrderB p = true) :
    ∀ a l b, p = a ++ l :: b → tagIs '4' l = true → a.any (tagIs '4') = false := by
  intro a l b hsp h4
  subst hsp
  by_contra hne
  rw [Bool.not_eq_false] at hne
  obtain ⟨x, hxa, hx4⟩ := List.any_eq_true.mp hne
  unfold wfOrderB at h
  rw [List.filter_append, List.filter_cons, if_pos (tag47_of_4 h4)] at h
  cases hfa : a.filter tag47 with
  | nil =>
    have : x ∈ a.filter tag47 := List.mem_filter.mpr ⟨hxa, tag47_of_4 hx4⟩
    rw [hfa] at this
    exact absurd this (List.not_mem_nil x)
  | cons i r =>
    rw [hfa, List.cons_append] at h
    simp only [Bool.and_eq_true] at h
    have hl : l ∈ r ++ l :: b.filter tag47 := by simp
    have h7 : tagIs '7' l = true := List.all_eq_true.mp h.2 l hl
    rw [not_tag7_of_4 h4] at h7
    exact absurd h7 (by simp)

theorem any7_of_wfOrderB {p : List (List Char)} (h : wfOrderB p = true) :
    p.any (tagIs '7') = true := by
  unfold wfOrderB at h
  cases hf : p.filter tag47 with
  | nil => rw [hf] at h; exact absurd h (by simp)
  | cons i r =>
    rw [hf] at h
    simp only [Bool.and_eq_true] at h
    cases hr : r with
    | nil => rw [hr] at h; exact absurd h.1.2 (by simp)
    | cons y r' =>
      have hy : y ∈ p.filter tag47 := by rw [hf, hr]; simp
      have h7 : tagIs '7' y = true := by
        apply List.all_eq_true.mp h.2
        rw [hr]; exact List.mem_cons_self _ _
      exact List.any_eq_true.mpr ⟨y, List.mem_of_mem_filter hy, h7⟩

theorem head_of_startLine {l : List Char} (h : isStartLine l = true) : l.head? = some '1' := by
  rw [isStartLine, Bool.and_eq_true, tagIs_iff] at h
  exact h.1

theorem head_of_endLine {l : List Char} (h : isEndLine l = true) : l.head? = some '1' := by
  rw [isEndLine, Bool.and_eq_true, tagIs_iff] at h
  exact h.1

theorem head_of_childLine {l : List Char} (h : isChildLine l = true) : l.head? = some '1' := by
  rw [isChildLine, Bool.and_eq_true, Bool.and_eq_true, Bool.and_eq_true, tagIs_iff] at h
  exact h.1.1

theorem runLines_starts (d2ts : D2TS) (starts : List (List Char)) (D : List TelegramV10)
    (h : ∀ l ∈ starts, isStartLine l = true) :
    runLines d2ts { initSt with dsmr := D } starts = .ok { initSt with dsmr := D } := by
  induction starts with
  | nil => rfl
  | cons l ls ih =>
    have hl := h l (List.mem_cons_self _ _)
    have hne : l.isEmpty = false := isEmpty_false_of_head (head_of_startLine hl)
    simp only [runLines, hne, Bool.false_eq_true, if_false, step_start hl]
    exact ih (fun x hx => h x (List.mem_cons_of_mem _ hx))

theorem runLines_chunk (d2ts : D2TS) (c : List (List Char)) (hc : wfChunk d2ts c) :
    ∃ t, (∀ D, runLines d2ts { initSt with dsmr := D } c =
        .ok { initSt with dsmr := D ++ [t] }) ∧
      segTelegram d2ts c = some t := by
  obtain ⟨starts, body, e, rfl, hst, hbody, hend⟩ := hc
  obtain ⟨hwf, hord, hany2, hps, hpm⟩ := hbody
  have h7 := ord7_of_wfOrderB hord
  have h4 := ord4_of_wfOrderB hord
  have hany7 := any7_of_wfOrderB hord
  obtain ⟨ev, hcor, hids, hsorted⟩ := correlate_of_perms hps hpm
  have hee : e.isEmpty = false := isEmpty_false_of_head (head_of_endLine hend)
  have main : ∀ D', runLines d2ts { initSt with dsmr := D' } (starts ++ body ++ [e]) =
      .ok { initSt with dsmr := D' ++ [⟨tdOf d2ts body, ev, elecOf body⟩] } := by
    intro D'
    rw [List.append_assoc, runLines_append, runLines_starts d2ts starts D' hst]
    show runLines d2ts _ (body ++ [e]) = _
    rw [runLines_append, runLines_body d2ts body D' hwf h7 h4]
    show runLines d2ts _ [e] = _
    have hend2 : endTelegram ⟨D', elecOf body, tdOf d2ts body, collectDats d2ts body,
        collectMsgs d2ts body, collectSevs d2ts body, body.any (tagIs '4'),
        body.any (tagIs '7'), body.any (tagIs '2')⟩ =
        .ok { initSt with dsmr := D' ++ [⟨tdOf d2ts body, ev, elecOf body⟩] } :=
      endTelegram_ok hany7 hany2 hcor
    simp only [runLines, hee, Bool.false_eq_true, if_false, step_end hend, hend2]
  refine ⟨⟨tdOf d2ts body, ev, elecOf body⟩, main, ?_⟩
  unfold segTelegram
  have h0 := main []
  have hinit : ({ initSt with dsmr := ([] : List TelegramV10) } : St) = initSt := rfl
  rw [hinit] at h0
  rw [h0]
  rfl

theorem runLines_chunks (d2ts : D2TS) (chunks : List (List (List Char)))
    (h : ∀ c ∈ chunks, wfChunk d2ts c) :
    ∀ D, runLines d2ts { initSt with dsmr := D } chunks.flatten =
        .ok { initSt with dsmr := D ++ chunks.filterMap (segTelegram d2ts) } ∧
      (chunks.filterMap (segTelegram d2ts)).length = chunks.length := by
  induction chunks with
  | nil => intro D; refine ⟨?_, rfl⟩; simp [runLines]
  | cons c rest ih =>
    intro D
    obtain ⟨t, hrun, hseg⟩ := runLines_chunk d2ts c (h c (List.mem_cons_self _ _))
    have ih' := ih (fun x hx => h x (List.mem_cons_of_mem _ hx))
    rw [List.flatten_cons, runLines_append, hrun]
    show runLines d2ts _ rest.flatten = _ ∧ _
    obtain ⟨ha, hb⟩ := ih' (D ++ [t])
    refine ⟨?_, ?_⟩
    · rw [ha]
      simp [List.filterMap_cons, hseg]
    · simp [List.filterMap_cons, hseg, hb]

theorem step_date_crash {d2ts : D2TS} {st : St} {l : List Char}
    (h : l.head? = some '2') (hd : decodeDateLine d2ts l = none) :
    step d2ts st l = .crashed := by
  simp [step, h, hd]

theorem step_evt_crash {d2ts : D2TS} {st : St} {l : List Char}
    (h : l.head? = some '3') (hd : decodeEvtLine d2ts l = none) :
    step d2ts st l = .crashed := by
  simp [step, h, hd]

theorem step_elec_crash {d2ts : D2TS} {st : St} {l : List Char}
    (h : l.head? = some '7') (hs : st.seen_info_type = true)
    (hd : decodeElecLine l = none) : step d2ts st l = .crashed := by
  simp [step, h, hs, hd]

theorem step_bad2 {d2ts : D2TS} {st : St} {l : List Char}
    (h : l.head? = some '1') (hb2 : l[2]? = none) : step d2ts st l = .crashed := by
  simp [step, h, hb2]

theorem step_bad4 {d2ts : D2TS} {st : St} {l : List Char}
    (h : l.head? = some '1') (hb2 : l[2]? = some '1') (hb4 : l[4]? = none) :
    step d2ts st l = .crashed := by
  simp [step, h, hb2, hb4]

theorem head1_classify {l : List Char} (h : l.head? = some '1') :
    isStartLine l = true ∨ isEndLine l = true ∨ isChildLine l = true ∨
      ∀ (d2ts : D2TS) (st : St), step d2ts st l = .crashed := by
  cases hb2 : l[2]? with
  | none =>
    exact Or.inr (Or.inr (Or.inr fun d2ts st => step_bad2 h hb2))
  | some b2 =>
    by_cases e2 : b2 = '2'
    · subst e2
      exact Or.inr (Or.inl (by simp [isEndLine, tagIs, h, hb2]))
    by_cases e1 : b2 = '1'
    · subst e1
      cases hb4 : l[4]? with
      | none => exact Or.inr (Or.inr (Or.inr fun d2ts st => step_bad4 h hb2 hb4))
      | some b4 =>
        by_cases e0 : b4 = '0'
        · subst e0
          exact Or.inl (by simp [isStartLine, tagIs, h, hb2, hb4])
        · refine Or.inr (Or.inr (Or.inl ?_))
          simp only [isChildLine, tagIs, h, hb2, hb4]
          simp [e0]
    · exact Or.inl (by simp [isStartLine, tagIs, h, hb2, e1, e2])

theorem step_ok_flags {d2ts : D2TS} {st : St} {l : List Char} {st' : St}
    (h : step d2ts st l = .ok st') :
    (isResetLine l = true ∧ st'.seen_info_type = false ∧ st'.has_electricity = false ∧
      st'.has_telegram_date = false) ∨
    (isResetLine l = false ∧
      st'.seen_info_type = (st.seen_info_type || tagIs '4' l) ∧
      st'.has_electricity = (st.has_electricity || tagIs '7' l) ∧
      st'.has_telegram_date = (st.has_telegram_date || tagIs '2' l)) := by
  cases hcl : l.head? with
  | none =>
    rw [step, hcl] at h
    exact PRes.noConfusion h
  | some c =>
    by_cases e1 : c = '1'
    · subst e1
      left
      refine ⟨by simp [isResetLine, tagIs, hcl], ?_⟩
      rcases head1_classify hcl with hs | hs | hs | hs
      · rw [step_start hs] at h
        injection h with h'
        subst h'
        exact ⟨rfl, rfl, rfl⟩
      · rw [step_end hs] at h
        obtain ⟨D, hD⟩ := endTelegram_ok_inv h
        subst hD
        exact ⟨rfl, rfl, rfl⟩
      · rw [step_child hs] at h
        exact PRes.noConfusion h
      · rw [hs d2ts st] at h
        exact PRes.noConfusion h
    · right
      have hr : isResetLine l = false := by simp [isResetLine, tagIs, hcl, e1]
      refine ⟨hr, ?_⟩
      have t4 : tagIs '4' l = decide (c = '4') := by simp [tagIs, hcl]
      have t7 : tagIs '7' l = decide (c = '7') := by simp [tagIs, hcl]
      have t2 : tagIs '2' l = decide (c = '2') := by simp [tagIs, hcl]
      by_cases e2 : c = '2'
      · subst e2
        cases hd : decodeDateLine d2ts l with
        | none => rw [step_date_crash hcl hd] at h; exact PRes.noConfusion h
        | some t =>
          rw [step_date hcl hd] at h
          injection h with h'
          subst h'
          simp [t4, t7, t2]
      by_cases e3 : c = '3'
      · subst e3
        cases hd : decodeEvtLine d2ts l with
        | none =>
          rw [step_evt_crash hcl hd] at h
          exact PRes.noConfusion h
        | some it =>
          cases it with
          | sev x =>
            rw [step_sev hcl hd] at h
            injection h with h'
            subst h'
            simp [t4, t7, t2]
          | msg x =>
            rw [step_msg hcl hd] at h
            injection h with h'
            subst h'
            simp [t4, t7, t2]
          | dat x =>
            rw [step_dat hcl hd] at h
            injection h with h'
            subst h'
            simp [t4, t7, t2]
      by_cases e4 : c = '4'
      · subst e4
        cases hs : st.seen_info_type with
        | true =>
          rw [step_info_dup hcl hs] at h
          exact PRes.noConfusion h
        | false =>
          rw [step_info hcl hs] at h
          injection h with h'
          subst h'
          simp [t4, t7, t2, hs]
      by_cases e7 : c = '7'
      · subst e7
        cases hs : st.seen_info_type with
        | false =>
          rw [step_elec_early hcl hs] at h
          exact PRes.noConfusion h
        | true =>
          cases hd : decodeElecLine l with
          | none =>
            rw [step_elec_crash hcl hs hd] at h
            exact PRes.noConfusion h
          | some f =>
            have hst := @step_elec d2ts st l f hcl hs hd
            rw [hst] at h
            injection h with h'
            subst h'
            simp [t4, t7, t2, hs]
      · rw [step_other hcl e1 e2 e3 e4 e7] at h
        injection h with h'
        subst h'
        simp [t4, t7, t2, e4, e7, e2]

theorem perm_any {α : Type} {l1 l2 : List α} (h : List.Perm l1 l2) (p : α → Bool) :
    l1.any p = l2.any p := by
  rw [Bool.eq_iff_iff, List.any_eq_true, List.any_eq_true]
  constructor
  · rintro ⟨x, hx, hp⟩
    exact ⟨x, h.mem_iff.mp hx, hp⟩
  · rintro ⟨x, hx, hp⟩
    exact ⟨x, h.mem_iff.mpr hx, hp⟩

theorem runLines_flags (d2ts : D2TS) (p : List (List Char)) :
    ∀ st st', runLines d2ts st p = .ok st' →
      st'.seen_info_type =
        ((st.seen_info_type && !(p.any isResetLine)) || (sinceReset p).any (tagIs '4')) ∧
      st'.has_electricity =
        ((st.has_electricity && !(p.any isResetLine)) || (sinceReset p).any (tagIs '7')) ∧
      st'.has_telegram_date =
        ((st.has_telegram_date && !(p.any isResetLine)) || (sinceReset p).any (tagIs '2')) := by
  induction p using List.reverseRecOn with
  | nil =>
    intro st st' h
    injection h with h'
    subst h'
    simp [sinceReset]
  | append_singleton q l ih =>
    intro st st' h
    rw [runLines_append] at h
    cases hq : runLines d2ts st q with
    | err e => rw [hq] at h; exact PRes.noConfusion h
    | crashed => rw [hq] at h; exact PRes.noConfusion h
    | ok st1 =>
      rw [hq] at h
      obtain ⟨f1, f2, f3⟩ := ih st st1 hq
      by_cases he : l.isEmpty
      · have hl : l = [] := List.isEmpty_iff.mp he
        subst hl
        simp only [runLines, if_pos rfl] at h
        injection h with h'
        subst h'
        rw [sinceReset_append_single]
        simp [isResetLine, tagIs, f1, f2, f3, List.any_append]
      · rw [Bool.not_eq_true] at he
        simp only [runLines, he, Bool.false_eq_true, if_false] at h
        cases hs : step d2ts st1 l with
        | err e => rw [hs] at h; exact PRes.noConfusion h
        | crashed => rw [hs] at h; exact PRes.noConfusion h
        | ok st2 =>
          rw [hs] at h
          simp only [runLines] at h
          injection h with h'
          subst h'
          rw [sinceReset_append_single]
          rcases step_ok_flags hs with ⟨hr, g1, g2, g3⟩ | ⟨hr, g1, g2, g3⟩
          · rw [if_pos hr]
            simp [List.any_append, hr, g1, g2, g3]
          · rw [if_neg (by rw [hr]; exact Bool.false_ne_true)]
            simp [List.any_append, hr, g1, g2, g3, f1, f2, f3, Bool.or_assoc]

theorem step_missing_iff {d2ts : D2TS} {st : St} {l : List Char} :
    step d2ts st l = .err .MissingElectricity ↔
      ((tagIs '7' l = true ∧ st.seen_info_type = false) ∨
       (isEndLine l = true ∧ st.has_electricity = false)) := by
  constructor
  · intro h
    cases hcl : l.head? with
    | none => rw [step, hcl] at h; exact PRes.noConfusion h
    | some c =>
      by_cases e1 : c = '1'
      · subst e1
        rcases head1_classify hcl with hs | hs | hs | hs
        · rw [step_start hs] at h; exact PRes.noConfusion h
        · rw [step_end hs] at h
          right
          refine ⟨hs, ?_⟩
          by_contra hne
          rw [Bool.not_eq_false] at hne
          unfold endTelegram at h
          rw [hne] at h
          simp only [Bool.true_eq_false, if_false] at h
          split at h
          · injection h with h'
            exact ParseError.noConfusion h'
          · split at h
            · exact PRes.noConfusion h
            · exact PRes.noConfusion h
        · rw [step_child hs] at h
          injection h with h'
          exact ParseError.noConfusion h'
        · rw [hs d2ts st] at h; exact PRes.noConfusion h
      by_cases e2 : c = '2'
      · subst e2
        cases hd : decodeDateLine d2ts l with
        | none => rw [step_date_crash hcl hd] at h; exact PRes.noConfusion h
        | some t => rw [step_date hcl hd] at h; exact PRes.noConfusion h
      by_cases e3 : c = '3'
      · subst e3
        cases hd : decodeEvtLine d2ts l with
        | none => rw [step_evt_crash hcl hd] at h; exact PRes.noConfusion h
        | some it =>
          cases it with
          | sev x => rw [step_sev hcl hd] at h; exact PRes.noConfusion h
          | msg x => rw [step_msg hcl hd] at h; exact PRes.noConfusion h
          | dat x => rw [step_dat hcl hd] at h; exact PRes.noConfusion h
      by_cases e4 : c = '4'
      · subst e4
        cases hs : st.seen_info_type with
        | true =>
          rw [step_info_dup hcl hs] at h
          injection h with h'
          exact ParseError.noConfusion h'
        | false => rw [step_info hcl hs] at h; exact PRes.noConfusion h
      by_cases e7 : c = '7'
      · subst e7
        cases hs : st.seen_info_type with
        | false => exact Or.inl ⟨by simp [tagIs, hcl], rfl⟩
        | true =>
          cases hd : decodeElecLine l with
          | none => rw [step_elec_crash hcl hs hd] at h; exact PRes.noConfusion h
          | some f =>
            have hst := @step_elec d2ts st l f hcl hs hd
            rw [hst] at h
            exact PRes.noConfusion h
      · rw [step_other hcl e1 e2 e3 e4 e7] at h; exact PRes.noConfusion h
  · rintro (⟨h7, hs⟩ | ⟨he, hel⟩)
    · exact step_elec_early (tagIs_iff.mp h7) hs
    · rw [step_end he]
      exact endTelegram_missing hel

theorem parse_eq_v10 {d2ts : D2TS} {input : String} (hv : versionOk input) :
    parse d2ts input = parse_v10 d2ts input := by
  unfold parse
  rw [if_pos hv.1, if_pos hv.2]

theorem parse_v10_err {d2ts : D2TS} {input : String} {e : ParseError} :
    parse_v10 d2ts input = .err e ↔
      runLines d2ts initSt ((rustLines input).drop 1) = .err e := by
  unfold parse_v10
  cases h : runLines d2ts initSt ((rustLines input).drop 1) <;> simp

theorem versionOk_of_parse_err {d2ts : D2TS} {input : String} {e : ParseError}
    (he : e ≠ ParseError.UnknownTelegramVersion) (h : parse d2ts input = .err e) :
    versionOk input := by
  unfold parse at h
  split at h
  · split at h
    · rename_i h1 h2
      exact ⟨h1, h2⟩
    · injection h with h'
      exact absurd h'.symm he
  · exact PRes.noConfusion h

theorem runLines_err_at {d2ts : D2TS} {st : St} {pre : List (List Char)} {l : List Char}
    {post : List (List Char)} {st' : St} {e : ParseError}
    (hpre : runLines d2ts st pre = .ok st') (hne : l.isEmpty = false)
    (hstep : step d2ts st' l = .err e) :
    runLines d2ts st (pre ++ l :: post) = .err e := by
  rw [runLines_append, hpre]
  show runLines d2ts st' (l :: post) = _
  simp only [runLines, hne, Bool.false_eq_true, if_false, hstep]

theorem digitVal_lt {c : Char} {n : Nat} (h : digitVal c = some n) : n < 10 := by
  unfold digitVal at h
  split at h
  · rename_i hd
    injection h with h'
    subst h'
    simp [Char.isDigit] at hd
    have h3 : c.toNat ≤ 57 := hd.2
    omega
  · exact Option.noConfusion h

theorem optBind_some {α β : Type} {x : Option α} {f : α → Option β} {b : β}
    (h : x >>= f = some b) : ∃ a, x = some a ∧ f a = some b := by
  cases x with
  | none => simp at h
  | some a => exact ⟨a, rfl, by simpa using h⟩

theorem decodeEvtLine_id_lt {d2ts : D2TS} {l : List Char} {it : EvtItem}
    (h : decodeEvtLine d2ts l = some it) :
    (match it with
     | .sev x => x.1
     | .msg x => x.1
     | .dat x => x.1) < 10 := by
  unfold decodeEvtLine at h
  obtain ⟨disc, hdisc, h⟩ := optBind_some h
  obtain ⟨paren, hparen, h⟩ := optBind_some h
  obtain ⟨val, hval, h⟩ := optBind_some h
  obtain ⟨eidC, heidC, h⟩ := optBind_some h
  obtain ⟨eid, heid, h⟩ := optBind_some h
  have hlt := digitVal_lt heid
  split at h
  · obtain ⟨b7, hb7, h⟩ := optBind_some h
    injection h with h'
    subst h'
    exact hlt
  · split at h
    · injection h with h'
      subst h'
      exact hlt
    · split at h
      · split at h
        · obtain ⟨dts, hdts, h⟩ := optBind_some h
          obtain ⟨f, hf, h⟩ := optBind_some h
          obtain ⟨t, ht, h⟩ := optBind_some h
          injection h with h'
          subst h'
          exact hlt
        · exact Option.noConfusion h
      · exact Option.noConfusion h

theorem mergeEnts_ids :
    ∀ (d : List (Nat × Int)) (s : List (Nat × Severity)) (m : List (Nat × List Char))
      (el : EventLog), mergeEnts d s m = some el → el.ids = idsOf d := by
  intro d
  induction d with
  | nil =>
    intro s m el h
    cases s with
    | cons b ss => cases m <;> exact Option.noConfusion h
    | nil =>
      cases m with
      | cons c ms => exact Option.noConfusion h
      | nil =>
        injection h with h'
        subst h'
        rfl
  | cons a ds ih =>
    intro s m el h
    cases s with
    | nil => cases m <;> exact Option.noConfusion h
    | cons b ss =>
      cases m with
      | nil => exact Option.noConfusion h
      | cons c ms =>
        simp only [mergeEnts] at h
        split at h
        · cases hrec : mergeEnts ds ss ms with
          | none => rw [hrec] at h; exact Option.noConfusion h
          | some el' =>
            rw [hrec] at h
            injection h with h'
            subst h'
            have := ih ss ms el' hrec
            simp [idsOf, this]
        · exact Option.noConfusion h

theorem correlate_ids_mem {d : List (Nat × Int)} {s : List (Nat × Severity)}
    {m : List (Nat × List Char)} {el : EventLog} (h : correlate d s m = some el) :
    ∀ i ∈ el.ids, i ∈ idsOf d := by
  simp only [correlate] at h
  split at h
  · have hids := mergeEnts_ids _ _ _ _ h
    intro i hi
    rw [hids] at hi
    have : i ∈ idsOf d := (idsOf_perm (sortById_perm d)).mem_iff.mp hi
    exact this
  · exact Option.noConfusion h

theorem endTelegram_ok_corr {st st' : St} (h : endTelegram st = .ok st') :
    ∃ ev, correlate st.dates st.severities st.messages = some ev ∧
      st' = { initSt with dsmr := st.dsmr ++ [⟨st.telegram_date, ev, st.electricity⟩] } := by
  unfold endTelegram at h
  split at h
  · exact PRes.noConfusion h
  · split at h
    · exact PRes.noConfusion h
    · split at h
      · exact PRes.noConfusion h
      · rename_i ev hev
        injection h with h'
        subst h'
        exact ⟨ev, hev, by rw [resetKeep_eq]⟩

theorem step_IdsOk {d2ts : D2TS} {st : St} {l : List Char} {st' : St}
    (h : step d2ts st l = .ok st') (hi : IdsOk st) : IdsOk st' := by
  obtain ⟨i1, i2, i3, i4⟩ := hi
  cases hcl : l.head? with
  | none => rw [step, hcl] at h; exact PRes.noConfusion h
  | some c =>
    by_cases e1 : c = '1'
    · subst e1
      rcases head1_classify hcl with hs | hs | hs | hs
      · rw [step_start hs] at h
        injection h with h'
        subst h'
        exact ⟨by simp [resetKeep], by simp [resetKeep], by simp [resetKeep],
          by simpa [resetKeep] using i4⟩
      · rw [step_end hs] at h
        obtain ⟨ev, hev, hst'⟩ := endTelegram_ok_corr h
        subst hst'
        refine ⟨by simp [initSt], by simp [initSt], by simp [initSt], ?_⟩
        intro t ht i hid
        simp only [List.mem_append, List.mem_singleton] at ht
        rcases ht with ht | ht
        · exact i4 t ht i hid
        · subst ht
          have hmem := correlate_ids_mem hev i hid
          simp only [idsOf, List.mem_map] at hmem
          obtain ⟨x, hx, hxi⟩ := hmem
          subst hxi
          exact i1 x hx
      · rw [step_child hs] at h; exact PRes.noConfusion h
      · rw [hs d2ts st] at h; exact PRes.noConfusion h
    by_cases e2 : c = '2'
    · subst e2
      cases hd : decodeDateLine d2ts l with
      | none => rw [step_date_crash hcl hd] at h; exact PRes.noConfusion h
      | some t =>
        rw [step_date hcl hd] at h
        injection h with h'
        subst h'
        exact ⟨i1, i2, i3, i4⟩
    by_cases e3 : c = '3'
    · subst e3
      cases hd : decodeEvtLine d2ts l with
      | none => rw [step_evt_crash hcl hd] at h; exact PRes.noConfusion h
      | some it =>
        have hlt := decodeEvtLine_id_lt hd
        cases it with
        | sev x =>
          rw [step_sev hcl hd] at h
          injection h with h'
          subst h'
          refine ⟨i1, ?_, i3, i4⟩
          intro y hy
          simp only [List.mem_append, List.mem_singleton] at hy
          rcases hy with hy | hy
          · exact i2 y hy
          · subst hy; exact hlt
        | msg x =>
          rw [step_msg hcl hd] at h
          injection h with h'
          subst h'
          refine ⟨i1, i2, ?_, i4⟩
          intro y hy
          simp only [List.mem_append, List.mem_singleton] at hy
          rcases hy with hy | hy
          · exact i3 y hy
          · subst hy; exact hlt
        | dat x =>
          rw [step_dat hcl hd] at h
          injection h with h'
          subst h'
          refine ⟨?_, i2, i3, i4⟩
          intro y hy
          simp only [List.mem_append, List.mem_singleton] at hy
          rcases hy with hy | hy
          · exact i1 y hy
          · subst hy; exact hlt
    by_cases e4 : c = '4'
    · subst e4
      cases hs : st.seen_info_type with
      | true => rw [step_info_dup hcl hs] at h; exact PRes.noConfusion h
      | false =>
        rw [step_info hcl hs] at h
        injection h with h'
        subst h'
        exact ⟨i1, i2, i3, i4⟩
    by_cases e7 : c = '7'
    · subst e7
      cases hs : st.seen_info_type with
      | false => rw [step_elec_early hcl hs] at h; exact PRes.noConfusion h
      | true =>
        cases hd : decodeElecLine l with
        | none => rw [step_elec_crash hcl hs hd] at h; exact PRes.noConfusion h
        | some f =>
          have hst := @step_elec d2ts st l f hcl hs hd
          rw [hst] at h
          injection h with h'
          subst h'
          exact ⟨i1, i2, i3, i4⟩
    · rw [step_other hcl e1 e2 e3 e4 e7] at h
      injection h with h'
      subst h'
      exact ⟨i1, i2, i3, i4⟩

theorem runLines_IdsOk (d2ts : D2TS) (p : List (List Char)) :
    ∀ st st', runLines d2ts st p = .ok st' → IdsOk st → IdsOk st' := by
  induction p with
  | nil =>
    intro st st' h hi
    injection h with h'
    subst h'
    exact hi
  | cons l ls ih =>
    intro st st' h hi
    by_cases he : l.isEmpty
    · rw [runLines, if_pos he] at h
      exact ih st st' h hi
    · rw [Bool.not_eq_true] at he
      rw [runLines] at h
      rw [he] at h
      simp only [Bool.false_eq_true, if_false] at h
      cases hs : step d2ts st l with
      | err e => rw [hs] at h; exact PRes.noConfusion h
      | crashed => rw [hs] at h; exact PRes.noConfusion h
      | ok st1 =>
        rw [hs] at h
        exact ih st1 st' h (step_IdsOk hs hi)

theorem filterMap_eq_on_filter {α β : Type} (p : α → Bool) (f : α → Option β)
    (hf : ∀ a, p a = false → f a = none) :
    ∀ l : List α, l.filterMap f = (l.filter p).filterMap f := by
  intro l
  induction l with
  | nil => rfl
  | cons a r ih =>
    cases hp : p a with
    | true => simp [List.filter_cons, hp, List.filterMap_cons, ih]
    | false => simp [List.filter_cons, hp, List.filterMap_cons, hf a hp, ih]

theorem foldl_eq_on_filter {α β : Type} (p : α → Bool) (g : β → α → β)
    (hg : ∀ b a, p a = false → g b a = b) :
    ∀ (l : List α) (b : β), l.foldl g b = (l.filter p).foldl g b := by
  intro l
  induction l with
  | nil => intro b; rfl
  | cons a r ih =>
    intro b
    cases hp : p a with
    | true => simp [List.filter_cons, hp, ih]
    | false =>
      rw [List.filter_cons, hp]
      simp only [List.foldl_cons, hg b a hp]
      exact ih b

theorem filter_sub_filter {α : Type} (p q : α → Bool)
    (hpq : ∀ a, p a = true → q a = true) (l : List α) :
    l.filter p = (l.filter q).filter p := by
  rw [List.filter_filter]
  apply List.filter_congr
  intro x hx
  cases hp : p x with
  | true => simp [hp, hpq x hp]
  | false => simp [hp]

theorem tag_unique {c c' : Char} {l : List Char} (h : tagIs c l = true) (hne : c' ≠ c) :
    tagIs c' l = false := by
  rw [tagIs_iff] at h
  have hcc : c ≠ c' := fun hc => hne hc.symm
  simp [tagIs, h, hcc]

theorem segTelegram_bodyEnd (d2ts : D2TS) (body : List (List Char)) (e : List Char)
    (ev : EventLog)
    (hwf : ∀ l ∈ body, wfBodyLine d2ts l = true)
    (hord : wfOrderB body = true)
    (hany2 : body.any (tagIs '2') = true)
    (hend : isEndLine e = true)
    (hcor : correlate (collectDats d2ts body) (collectSevs d2ts body)
      (collectMsgs d2ts body) = some ev) :
    segTelegram d2ts (body ++ [e]) = some ⟨tdOf d2ts body, ev, elecOf body⟩ := by
  have h7 := ord7_of_wfOrderB hord
  have h4 := ord4_of_wfOrderB hord
  have hany7 := any7_of_wfOrderB hord
  have hee : e.isEmpty = false := isEmpty_false_of_head (head_of_endLine hend)
  have hb' : runLines d2ts initSt body =
      .ok ⟨[], elecOf body, tdOf d2ts body, collectDats d2ts body, collectMsgs d2ts body,
        collectSevs d2ts body, body.any (tagIs '4'), body.any (tagIs '7'),
        body.any (tagIs '2')⟩ :=
    runLines_body d2ts body [] hwf h7 h4
  have hend2 : endTelegram ⟨[], elecOf body, tdOf d2ts body, collectDats d2ts body,
      collectMsgs d2ts body, collectSevs d2ts body, body.any (tagIs '4'),
      body.any (tagIs '7'), body.any (tagIs '2')⟩ =
      .ok { initSt with dsmr := [] ++ [⟨tdOf d2ts body, ev, elecOf body⟩] } :=
    endTelegram_ok hany7 hany2 hcor
  unfold segTelegram
  rw [runLines_append, hb']
  simp only [runLines, hee, Bool.false_eq_true, if_false, step_end hend, hend2]
  rfl

/-- C1 (amended): at a telegram-end line reached with the electricity and
date flags set, IF the three collected event sub-field lists carry the same
multiset of event ids, the correlation step's internal-consistency conditions
hold and its assertions never fire: the dispatch step succeeds. Without the
equal-multiset condition this fails (see the counterexample): an input can
pass every field handler yet crash on the length assertion. -/
theorem c1_correlation_consistent (d2ts : D2TS) (st : St) (l : List Char)
    (hend : isEndLine l = true) (hel : st.has_electricity = true)
    (hdt : st.has_telegram_date = true)
    (hps : List.Perm (idsOf st.dates) (idsOf st.severities))
    (hpm : List.Perm (idsOf st.dates) (idsOf st.messages)) :
    ∃ st', step d2ts st l = .ok st' := by
  obtain ⟨ev, hcor, _, _⟩ := correlate_of_perms hps hpm
  exact ⟨_, by rw [step_end hend]; exact endTelegram_ok hel hdt hcor⟩

/-- C1 witness: the correlation step succeeds on a concrete end-of-telegram
state holding one fully correlated event id. -/
theorem c1_correlation_consistent_witness :
    resOk (step d2ts0 exStC1 exEnd) = true := by
  obtain ⟨st', hok⟩ := c1_correlation_consistent d2ts0 exStC1 exEnd (by decide) (by decide)
    (by decide) (by decide) (by decide)
  rw [hok]
  rfl

/-- C1 counterexample: an input whose field handlers all succeed (the prefix
runs to an ok state and no ParseError is returned) but whose correlation
assertions fire at telegram end — a severity sub-field with no matching date
or message makes the whole parse crash, so field-level validation does not
rule the assertions out. -/
theorem c1_correlation_consistent_counterexample :
    (rustLines "/v10\n3.1.1(H)\n4\n7.1.1(02.5*W)\n2....23-Jan-05 10:20:30SX)\n1.2.1(E)\n").drop 1 =
      List.map String.data
        ["3.1.1(H)", "4", "7.1.1(02.5*W)", "2....23-Jan-05 10:20:30SX)"] ++ ["1.2.1(E)".data] ∧
    resOk (runLines d2ts0 initSt
      (List.map String.data
        ["3.1.1(H)", "4", "7.1.1(02.5*W)", "2....23-Jan-05 10:20:30SX)"])) = true ∧
    parse d2ts0 "/v10\n3.1.1(H)\n4\n7.1.1(02.5*W)\n2....23-Jan-05 10:20:30SX)\n1.2.1(E)\n" =
      .crashed ∧
    correlate [] [(1, Severity.Low)] [] = none := by
  refine ⟨by decide, by decide, by decide, by decide⟩

/-- C2 (amended): the line pass always terminates with either the complete
telegram list, a `ParseError`, or a crash (panic); a failing pass stops at the
failing line — the outcome is unchanged by any further input — and error
results carry no partial output. (The original claim's "never by crashing" is
false: see the counterexample.) -/
theorem c2_total_and_stops_at_failure (d2ts : D2TS) :
    (∀ (st : St) (ls ls' : List (List Char)) (e : ParseError),
      runLines d2ts st ls = .err e → runLines d2ts st (ls ++ ls') = .err e) ∧
    (∀ (st : St) (ls ls' : List (List Char)),
      runLines d2ts st ls = .crashed → runLines d2ts st (ls ++ ls') = .crashed) ∧
    (∀ (input : String) (e : ParseError) (extra : List (List Char)),
      e ≠ ParseError.UnknownTelegramVersion → parse d2ts input = .err e →
      runLines d2ts initSt ((rustLines input).drop 1 ++ extra) = .err e) := by
  refine ⟨fun st ls ls' e h => runLines_err_mono d2ts st ls ls' e h,
    fun st ls ls' h => runLines_crashed_mono d2ts st ls ls' h, ?_⟩
  intro input e extra hne h
  have hv := versionOk_of_parse_err hne h
  rw [parse_eq_v10 hv, parse_v10_err] at h
  exact runLines_err_mono d2ts initSt _ extra e h

/-- C2 witness: a failing prefix keeps its exact error outcome under appended
input, at line level and from a full parse. -/
theorem c2_total_and_stops_at_failure_witness :
    runLines d2ts0 initSt ([['7']] ++ [['4']]) = .err .MissingElectricity ∧
    runLines d2ts0 initSt ([['1']] ++ [['4']]) = .crashed ∧
    runLines d2ts0 initSt ((rustLines "/v10\n7").drop 1 ++ [['4']]) =
      .err .MissingElectricity := by
  obtain ⟨ha, hb, hc⟩ := c2_total_and_stops_at_failure d2ts0
  exact ⟨ha initSt [['7']] [['4']] _ (by decide), hb initSt [['1']] [['4']] (by decide),
    hc "/v10\n7" _ [['4']] (by decide) (by decide)⟩

/-- C2 counterexample: the empty input makes `parse` crash (the Rust code
panics slicing `&input[1..4]`), so parsing does not always return a telegram
list or a `ParseError`. -/
theorem c2_total_and_stops_at_failure_counterexample :
    parse d2ts0 "" = .crashed := by decide

/-- C5 (amended): decoding the date token `23-Jan-05 10:20:30S` yields the
calendar tuple (2023, 1, 5, 10, 20, 30, daylight = false): year is 2000 plus
the two-digit year and the month comes from the two-letter-prefix table, but
the daylight flag is read from the second-to-last character of the token
(`'0'` here), not from the trailing indicator; the indicator is only seen
when one further character follows it, as in the fourth conjunct. -/
theorem c5_date_token_decoding :
    decodeDateToken "23-Jan-05 10:20:30S".data = some (2023, 1, 5, 10, 20, 30, false) ∧
    decodeDateToken "23-Jan-05 10:20:30S?".data = some (2023, 1, 5, 10, 20, 30, true) ∧
    get_month_as_uint "Jan".data = 1 ∧ get_month_as_uint "Mar".data = 5 ∧
    get_month_as_uint "May".data = 3 ∧ get_month_as_uint "Jun".data = 6 ∧
    get_month_as_uint "Jul".data = 7 ∧ get_month_as_uint "Dec".data = 12 := by
  refine ⟨by rfl, by rfl, by decide, by decide, by decide, by decide, by decide,
    by decide⟩

/-- C5 counterexample: the 19-character token does NOT decode with
daylight = true as the claim states, because the handler reads the
second-to-last character. -/
theorem c5_date_token_decoding_counterexample :
    ¬ (decodeDateToken "23-Jan-05 10:20:30S".data = some (2023, 1, 5, 10, 20, 30, true)) := by
  intro h
  have h0 : decodeDateToken "23-Jan-05 10:20:30S".data =
      some (2023, 1, 5, 10, 20, 30, false) := rfl
  rw [h0] at h
  simp at h

/-- C7 (amended): when the input is at least four bytes long and bytes 1..4
do not read `v10`, parsing returns `UnknownTelegramVersion` (on shorter input
the version check panics instead — see the counterexample); when the version
matches, the header line is consumed and discarded and the result depends
only on the remaining lines. -/
theorem c7_version_header (d2ts : D2TS) :
    (∀ input : String, 4 ≤ input.data.length →
      (input.data.drop 1).take 3 ≠ ['v', '1', '0'] →
      parse d2ts input = .err .UnknownTelegramVersion) ∧
    (∀ i1 i2 : String, versionOk i1 → versionOk i2 →
      (rustLines i1).drop 1 = (rustLines i2).drop 1 →
      parse d2ts i1 = parse d2ts i2) := by
  constructor
  · intro input hlen hne
    unfold parse
    rw [if_pos hlen, if_neg hne]
  · intro i1 i2 hv1 hv2 hsame
    rw [parse_eq_v10 hv1, parse_eq_v10 hv2]
    unfold parse_v10
    rw [hsame]

/-- C7 witness: a four-byte input with the wrong version errors, and two
inputs with different header lines but the same remaining lines parse
identically. -/
theorem c7_version_header_witness :
    parse d2ts0 "abcd" = .err .UnknownTelegramVersion ∧
    parse d2ts0 "/v10\nA" = parse d2ts0 "Xv10ZZZ\nA" := by
  obtain ⟨ha, hb⟩ := c7_version_header d2ts0
  exact ⟨ha "abcd" (by decide) (by decide),
    hb "/v10\nA" "Xv10ZZZ\nA" (by decide) (by decide) (by decide)⟩

/-- C7 counterexample: an input shorter than four bytes whose header does not
identify the version makes `parse` crash instead of returning
`UnknownTelegramVersion`. -/
theorem c7_version_header_counterexample :
    parse d2ts0 "x" = .crashed ∧
    parse d2ts0 "x" ≠ .err .UnknownTelegramVersion := by
  refine ⟨by decide, by decide⟩

/-- C6: parsing fails with `MissingElectricity` exactly when the pass reaches
either an electricity-field line before any information-type marker of the
current telegram, or a telegram-end marker with no electricity field seen in
the current telegram. -/
theorem c6_missing_electricity_iff (d2ts : D2TS) (input : String) :
    parse d2ts input = .err .MissingElectricity ↔
      (versionOk input ∧
        ∃ pre l post, (rustLines input).drop 1 = pre ++ l :: post ∧
          (∃ st, runLines d2ts initSt pre = .ok st) ∧ l.isEmpty = false ∧
          ((tagIs '7' l = true ∧ ((sinceReset pre).any (tagIs '4')) = false) ∨
           (isEndLine l = true ∧ ((sinceReset pre).any (tagIs '7')) = false))) := by
  constructor
  · intro h
    have hv : versionOk input := versionOk_of_parse_err (by decide) h
    refine ⟨hv, ?_⟩
    rw [parse_eq_v10 hv, parse_v10_err] at h
    obtain ⟨pre, l, post, st, hsp, hok, hne, hstep⟩ := runLines_err_split d2ts _ _ _ h
    refine ⟨pre, l, post, hsp, ⟨st, hok⟩, hne, ?_⟩
    obtain ⟨f1, f2, f3⟩ := runLines_flags d2ts pre initSt st hok
    rcases step_missing_iff.mp hstep with ⟨h7, hs⟩ | ⟨he, hel⟩
    · left
      refine ⟨h7, ?_⟩
      rw [hs] at f1
      simpa [initSt] using f1.symm
    · right
      refine ⟨he, ?_⟩
      rw [hel] at f2
      simpa [initSt] using f2.symm
  · rintro ⟨hv, pre, l, post, hsp, ⟨st, hok⟩, hne, hcond⟩
    rw [parse_eq_v10 hv, parse_v10_err, hsp]
    apply runLines_err_at hok hne
    apply step_missing_iff.mpr
    obtain ⟨f1, f2, f3⟩ := runLines_flags d2ts pre initSt st hok
    rcases hcond with ⟨h7, h4n⟩ | ⟨hel, h7n⟩
    · exact Or.inl ⟨h7, by rw [f1]; simp [initSt, h4n]⟩
    · exact Or.inr ⟨hel, by rw [f2]; simp [initSt, h7n]⟩

/-- C8: a telegram that reaches its end marker having seen an electricity
field but never a date field in the current telegram fails with `NoDate`. -/
theorem c8_no_date (d2ts : D2TS) (input : String) (pre : List (List Char))
    (l : List Char) (post : List (List Char)) (st : St)
    (hv : versionOk input)
    (hsp : (rustLines input).drop 1 = pre ++ l :: post)
    (hok : runLines d2ts initSt pre = .ok st)
    (hend : isEndLine l = true)
    (hnodate : (sinceReset pre).any (tagIs '2') = false)
    (helec : (sinceReset pre).any (tagIs '7') = true) :
    parse d2ts input = .err .NoDate := by
  obtain ⟨f1, f2, f3⟩ := runLines_flags d2ts pre initSt st hok
  have hel : st.has_electricity = true := by rw [f2]; simp [initSt, helec]
  have hdt : st.has_telegram_date = false := by rw [f3]; simp [initSt, hnodate]
  rw [parse_eq_v10 hv, parse_v10_err, hsp]
  apply runLines_err_at hok (isEmpty_false_of_head (head_of_endLine hend))
  rw [step_end hend]
  exact endTelegram_nodate hel hdt

/-- C8 witness: a telegram with info marker and electricity but no date line
fails with `NoDate`. -/
theorem c8_no_date_witness :
    parse d2ts0 "/v10\n4\n7.1.1(02.5*W)\n1.2.1(E)\n" = .err .NoDate := by
  apply c8_no_date d2ts0 _ (List.map String.data ["4", "7.1.1(02.5*W)"]) "1.2.1(E)".data []
    exStC8
  · decide
  · decide
  · decide
  · decide
  · decide
  · decide

/-- C9 (amended): when a nested/child telegram marker line is reached (every
line before it processes without error or panic), parsing fails with
`ChildTelegramNotSupported`, regardless of all content following that line.
(For inputs where an earlier line already fails, that earlier outcome wins —
see the counterexample.) -/
theorem c9_child_not_supported (d2ts : D2TS) (input : String)
    (pre : List (List Char)) (l : List Char) (post : List (List Char)) (st : St)
    (hv : versionOk input)
    (hsp : (rustLines input).drop 1 = pre ++ l :: post)
    (hok : runLines d2ts initSt pre = .ok st)
    (hchild : isChildLine l = true) :
    parse d2ts input = .err .ChildTelegramNotSupported := by
  rw [parse_eq_v10 hv, parse_v10_err, hsp]
  apply runLines_err_at hok (isEmpty_false_of_head (head_of_childLine hchild))
  exact step_child hchild

/-- C9 witness: a child marker as the first dispatched line rejects the whole
input whatever follows it. -/
theorem c9_child_not_supported_witness :
    parse d2ts0 "/v10\n1.1.1(X)\nGARBAGE LINES\n7.1.1(02.5*W)\n" =
      .err .ChildTelegramNotSupported := by
  apply c9_child_not_supported d2ts0 _ [] "1.1.1(X)".data
    (List.map String.data ["GARBAGE LINES", "7.1.1(02.5*W)"]) initSt
  · decide
  · decide
  · rfl
  · decide

/-- C9 counterexample: an input containing a child telegram marker for which
parsing does NOT fail with `ChildTelegramNotSupported`: an electricity field
line before the marker fails first with `MissingElectricity`. -/
theorem c9_child_not_supported_counterexample :
    ((rustLines "/v10\n7.1.1(02.5*W)\n1.1.1(X)\n").drop 1).any isChildLine = true ∧
    parse d2ts0 "/v10\n7.1.1(02.5*W)\n1.1.1(X)\n" = .err .MissingElectricity := by
  refine ⟨by decide, by decide⟩

/-- C10: every event id is decoded from the single character at byte 4 of an
event-log line as a decimal digit, so in every successfully parsed telegram
every event-log id is between 0 and 9; multi-digit ids are unrepresentable. -/
theorem c10_event_ids_single_digit (d2ts : D2TS) (input : String)
    (ts : List TelegramV10) (h : parse d2ts input = .ok ts) :
    ∀ t ∈ ts, ∀ i ∈ t.event_log.ids, i < 10 := by
  unfold parse at h
  split at h
  · split at h
    · unfold parse_v10 at h
      cases hr : runLines d2ts initSt ((rustLines input).drop 1) with
      | ok st =>
        rw [hr] at h
        injection h with h'
        subst h'
        have hi := runLines_IdsOk d2ts _ initSt st hr
          ⟨by simp [initSt], by simp [initSt], by simp [initSt], by simp [initSt]⟩
        exact hi.2.2.2
      | err e => rw [hr] at h; exact PRes.noConfusion h
      | crashed => rw [hr] at h; exact PRes.noConfusion h
    · exact PRes.noConfusion h
  · exact PRes.noConfusion h

/-- C10 witness: a successfully parsed concrete telegram carries the
single-digit event id 1, and it is below 10. -/
theorem c10_event_ids_single_digit_witness :
    parse d2ts0 exInput = .ok [exTele] ∧ (1 : Nat) < 10 := by
  refine ⟨by decide, ?_⟩
  exact c10_event_ids_single_digit d2ts0 exInput [exTele] (by decide) exTele (by decide)
    1 (by decide)

/-- C3: an input whose lines after the header are the concatenation of
well-formed telegram chunks (each ending in its end marker) parses
successfully to exactly one telegram per chunk, in chunk order: the result is
the per-chunk telegrams in sequence. -/
theorem c3_telegram_per_end_marker (d2ts : D2TS) (input : String)
    (chunks : List (List (List Char)))
    (hv : versionOk input)
    (hsp : (rustLines input).drop 1 = chunks.flatten)
    (hwf : ∀ c ∈ chunks, wfChunk d2ts c) :
    parse d2ts input = .ok (chunks.filterMap (segTelegram d2ts)) ∧
    (chunks.filterMap (segTelegram d2ts)).length = chunks.length := by
  obtain ⟨hrun, hlen⟩ := runLines_chunks d2ts chunks hwf []
  have hrun' : runLines d2ts initSt chunks.flatten =
      .ok { initSt with dsmr := [] ++ chunks.filterMap (segTelegram d2ts) } := hrun
  refine ⟨?_, hlen⟩
  rw [parse_eq_v10 hv]
  unfold parse_v10
  rw [hsp, hrun']
  simp

/-- C3 witness: a concrete one-chunk input yields exactly one telegram. -/
theorem c3_telegram_per_end_marker_witness :
    parse d2ts0 exInput = .ok ([exBody ++ [exEnd]].filterMap (segTelegram d2ts0)) ∧
    ([exBody ++ [exEnd]].filterMap (segTelegram d2ts0)).length =
      [exBody ++ [exEnd]].length := by
  apply c3_telegram_per_end_marker d2ts0 exInput [exBody ++ [exEnd]]
  · decide
  · decide
  · intro c hc
    simp only [List.mem_singleton] at hc
    subst hc
    exact ⟨[], exBody, exEnd, by simp, fun l hl => absurd hl (List.not_mem_nil l),
      ⟨by decide, by decide, by decide, by decide, by decide⟩, by decide⟩

/-- C4: for a well-formed telegram body (one sub-field of each kind per event
id), the resulting telegram's event-log ids are in ascending order, and the
resulting telegram is unchanged under any permutation of the arrival order of
its event sub-field lines (the non-event lines kept in order). -/
theorem c4_event_log_order_independent (d2ts : D2TS)
    (seg seg' : List (List Char)) (e : List Char)
    (hbody : wfBody d2ts seg)
    (hnd : (idsOf (collectDats d2ts seg)).Nodup)
    (hp3 : List.Perm (seg.filter (tagIs '3')) (seg'.filter (tagIs '3')))
    (hn3 : seg.filter (fun l => !(tagIs '3' l)) = seg'.filter (fun l => !(tagIs '3' l)))
    (hend : isEndLine e = true) :
    ∃ t, segTelegram d2ts (seg ++ [e]) = some t ∧
      List.Sorted (· ≤ ·) t.event_log.ids ∧
      segTelegram d2ts (seg' ++ [e]) = some t := by
  obtain ⟨hwf, hord, hany2, hps, hpm⟩ := hbody
  have hap1 := List.filter_append_perm (tagIs '3') seg
  have hap2 := List.filter_append_perm (tagIs '3') seg'
  have hmid : List.Perm
      (seg.filter (tagIs '3') ++ seg.filter (fun l => !(tagIs '3' l)))
      (seg'.filter (tagIs '3') ++ seg'.filter (fun l => !(tagIs '3' l))) := by
    rw [hn3]
    exact hp3.append_right _
  have hperm : List.Perm seg seg' := (hap1.symm.trans hmid).trans hap2
  have pD : List.Perm (collectDats d2ts seg) (collectDats d2ts seg') :=
    hperm.filterMap _
  have pS : List.Perm (collectSevs d2ts seg) (collectSevs d2ts seg') :=
    hperm.filterMap _
  have pM : List.Perm (collectMsgs d2ts seg) (collectMsgs d2ts seg') :=
    hperm.filterMap _
  have nS : (idsOf (collectSevs d2ts seg)).Nodup := (hps.nodup_iff).mp hnd
  have nM : (idsOf (collectMsgs d2ts seg)).Nodup := (hpm.nodup_iff).mp hnd
  have hcoreq := correlate_congr pD pS pM hnd nS nM
  obtain ⟨ev, hcor, hids, hsorted⟩ := correlate_of_perms hps hpm
  have hwf' : ∀ l ∈ seg', wfBodyLine d2ts l = true := fun l hl =>
    hwf l (hperm.mem_iff.mpr hl)
  have h47n3 : ∀ l : List Char, tag47 l = true → (!(tagIs '3' l)) = true := by
    intro l h
    rw [tag47, Bool.or_eq_true] at h
    rcases h with h | h
    · rw [tag_unique h (by decide)]
      rfl
    · rw [tag_unique h (by decide)]
      rfl
  have hf47 : seg.filter tag47 = seg'.filter tag47 := by
    rw [filter_sub_filter tag47 _ h47n3 seg, hn3,
      ← filter_sub_filter tag47 _ h47n3 seg']
  have hord' : wfOrderB seg' = true := by
    unfold wfOrderB at hord ⊢
    rw [← hf47]
    exact hord
  have hany2' : seg'.any (tagIs '2') = true := by
    rw [← perm_any hperm]
    exact hany2
  have hps' : List.Perm (idsOf (collectDats d2ts seg')) (idsOf (collectSevs d2ts seg')) :=
    ((idsOf_perm pD).symm.trans hps).trans (idsOf_perm pS)
  have hpm' : List.Perm (idsOf (collectDats d2ts seg')) (idsOf (collectMsgs d2ts seg')) :=
    ((idsOf_perm pD).symm.trans hpm).trans (idsOf_perm pM)
  have hcor' : correlate (collectDats d2ts seg') (collectSevs d2ts seg')
      (collectMsgs d2ts seg') = some ev := by
    rw [← hcoreq]
    exact hcor
  have h2n3 : ∀ l : List Char, tagIs '2' l = true → (!(tagIs '3' l)) = true := by
    intro l h
    rw [tag_unique h (by decide)]
    rfl
  have h7n3 : ∀ l : List Char, tagIs '7' l = true → (!(tagIs '3' l)) = true := by
    intro l h
    rw [tag_unique h (by decide)]
    rfl
  have hfilter2 : seg.filter (tagIs '2') = seg'.filter (tagIs '2') := by
    rw [filter_sub_filter (tagIs '2') _ h2n3 seg, hn3,
      ← filter_sub_filter (tagIs '2') _ h2n3 seg']
  have hfilter7 : seg.filter (tagIs '7') = seg'.filter (tagIs '7') := by
    rw [filter_sub_filter (tagIs '7') _ h7n3 seg, hn3,
      ← filter_sub_filter (tagIs '7') _ h7n3 seg']
  have htd : tdOf d2ts seg = tdOf d2ts seg' := by
    unfold tdOf
    rw [foldl_eq_on_filter (tagIs '2') _ (by intro b a h; simp [h]) seg,
      foldl_eq_on_filter (tagIs '2') _ (by intro b a h; simp [h]) seg', hfilter2]
  have helec : elecOf seg = elecOf seg' := by
    unfold elecOf
    rw [foldl_eq_on_filter (tagIs '7') _ (by intro b a h; simp [h]) seg,
      foldl_eq_on_filter (tagIs '7') _ (by intro b a h; simp [h]) seg', hfilter7]
  refine ⟨⟨tdOf d2ts seg, ev, elecOf seg⟩,
    segTelegram_bodyEnd d2ts seg e ev hwf hord hany2 hend hcor, hsorted, ?_⟩
  have h2 := segTelegram_bodyEnd d2ts seg' e ev hwf' hord' hany2' hend hcor'
  rw [h2, ← htd, ← helec]

/-- C4 witness: the concrete telegram body and a permutation of its event
sub-field lines produce the same telegram, with sorted event ids. -/
theorem c4_event_log_order_independent_witness :
    segTelegram d2ts0 (exBody ++ [exEnd]) = some exTele ∧
    segTelegram d2ts0 (exBodyPerm ++ [exEnd]) = some exTele ∧
    List.Sorted (· ≤ ·) exTele.event_log.ids := by
  obtain ⟨t, h1, hs, h2⟩ := c4_event_log_order_independent d2ts0 exBody exBodyPerm exEnd
    (by refine ⟨?_, ?_, ?_, ?_, ?_⟩ <;> decide) (by decide) (by decide) (by decide)
    (by decide)
  have he1 : segTelegram d2ts0 (exBody ++ [exEnd]) = some exTele := by decide
  rw [h1] at he1
  injection he1 with ht
  subst ht
  exact ⟨h1, h2, hs⟩
